import Mathlib

/-!
# AgentMesh ingestion core — verification development

A shallow embedding of the ingestion core of the AgentMesh repository:
the text sanitizer, summary/title helpers, the transcript line parser,
the role/part-type mappers, the Claude message builder, the upsert/dedup
persistence layer, the ingestion orchestrator cycle, the canonical-bundle
ingestion entry point, and the continuous-watch tick scheduler.

Modelling conventions:
* JavaScript strings are modelled as `List Char` (`Text`); `String.length`,
  `slice`, `trim` and the regex operations used by the source are translated
  to explicit list functions below.
* Timestamps (`Date` values) are modelled as epoch milliseconds (`Int`);
  the ISO-8601 serialization used for checkpoint storage is modelled by the
  timestamp value itself (serialization and parsing are mutually inverse).
* Database rows live in in-memory lists keyed by the same natural keys the
  source uses; surrogate ids are drawn from a `nextId` counter.
* `sha1` content hashing is modelled by a collision-free tagging function
  (`hashValue`), which preserves the only property the pipeline relies on:
  equal inputs give equal ids, and hashed ids never collide with raw ids.
-/

namespace AgentMesh

/-- JavaScript strings, modelled as lists of characters. -/
abbrev Text := List Char

/-- The JavaScript whitespace class used by `String.prototype.trim` and the
regex class `\s` (ECMA-262 WhiteSpace ∪ LineTerminator). -/
def isJsSpace (c : Char) : Bool :=
  c == ' ' || c == '\t' || c == '\n' || c == '\x0b' || c == '\x0c' || c == '\r' ||
  c == ' ' || c == ' ' || (' ' ≤ c && c ≤ ' ') || c == ' ' ||
  c == ' ' || c == ' ' || c == ' ' || c == '　' || c == '﻿'

/-- JS `String.prototype.trimStart`. -/
def trimStart (s : Text) : Text := s.dropWhile isJsSpace

/-- JS `String.prototype.trimEnd`. -/
def trimEnd (s : Text) : Text := (s.reverse.dropWhile isJsSpace).reverse

/-- JS `String.prototype.trim`. -/
def trimChars (s : Text) : Text := trimEnd (trimStart s)

/-- Case folding used by the `i` regex flag on the ASCII tag alphabet. -/
def lowerChar (c : Char) : Char := c.toLower

/-- Does `s` start with the (already lowercase) pattern `pat`, comparing
case-insensitively? -/
def startsWithCI : Text → Text → Bool
  | [], _ => true
  | _ :: _, [] => false
  | p :: ps, c :: cs => (lowerChar c == p) && startsWithCI ps cs

/-- Index of the first case-insensitive occurrence of `pat` in `s`. -/
def findCI (pat : Text) : Text → Option Nat
  | [] => if pat.isEmpty then some 0 else none
  | c :: cs =>
    if startsWithCI pat (c :: cs) then some 0
    else (findCI pat cs).map (· + 1)

/-- One global-replace pass of the lazy regex `openT[\s\S]*?closeT` (flags `gi`)
with the empty replacement, on fuel.  Each match starts at the first
case-insensitive occurrence of `openT` and extends to the end of the first
occurrence of `closeT` after it; scanning resumes after the removed match. -/
def dropTaggedAux (openT closeT : Text) : Nat → Text → Text
  | 0, s => s
  | fuel + 1, s =>
    match findCI openT s with
    | none => s
    | some i =>
      match findCI closeT (s.drop (i + openT.length)) with
      | none => s
      | some j =>
        s.take i ++
          dropTaggedAux openT closeT fuel
            ((s.drop (i + openT.length)).drop (j + closeT.length))

/-- JS `value.replaceAll(/openT[\s\S]*?closeT/gi, "")`. -/
def dropTagged (openT closeT : Text) (s : Text) : Text :=
  dropTaggedAux openT closeT s.length s

/-- The three fixed markup tag pairs stripped by the sanitizer. -/
def caveatOpen : Text := "<local-command-caveat>".data

def caveatClose : Text := "</local-command-caveat>".data

def reminderOpen : Text := "<system-reminder>".data

def reminderClose : Text := "</system-reminder>".data

def stdoutOpen : Text := "<local-command-stdout>".data

def stdoutClose : Text := "</local-command-stdout>".data

/-- `sanitizeImportedText` from the source pipeline: strips the three
tag-delimited spans (caveat, then reminder, then stdout), then trims. -/
def sanitizeImportedText (value : Text) : Text :=
  trimChars
    (dropTagged stdoutOpen stdoutClose
      (dropTagged reminderOpen reminderClose
        (dropTagged caveatOpen caveatClose value)))

/-- Helper for `collapseWs`: the flag records whether the previous character
belonged to a whitespace run already replaced by a space. -/
def collapseWsAux : Bool → Text → Text
  | _, [] => []
  | inRun, c :: rest =>
    if isJsSpace c then
      if inRun then collapseWsAux true rest
      else ' ' :: collapseWsAux true rest
    else c :: collapseWsAux false rest

/-- JS `s.replaceAll(/\s+/g, " ")`: collapse each maximal whitespace run to a
single space. -/
def collapseWs (s : Text) : Text := collapseWsAux false s

/-- Canonical message roles (the `MessageRole` Prisma enum). -/
inductive MessageRole
  | USER
  | ASSISTANT
  | TOOL
deriving DecidableEq

/-- Canonical message part types (the `MessagePartType` Prisma enum). -/
inductive MessagePartType
  | TEXT
  | REASONING
  | TOOL
  | STEP_START
  | STEP_FINISH
  | ERROR
  | OTHER
deriving DecidableEq

/-- `IngestMessagePartInput` from the source pipeline.  `data` holds the
serialized opaque JSON payload. -/
structure IngestMessagePartInput where
  externalPartId : String
  partType : MessagePartType
  text : Option Text := none
  data : Option String := none
  sourceTimestamp : Option Int := none
  ordinal : Nat
deriving DecidableEq

/-- `IngestMessageInput` from the source pipeline. -/
structure IngestMessageInput where
  externalMessageId : String
  role : MessageRole
  modelProvider : Option String := none
  modelId : Option String := none
  content : Text
  metadata : Option String := none
  sourceTimestamp : Option Int := none
  ordinal : Nat
  parts : List IngestMessagePartInput := []
deriving DecidableEq

/-- `IngestSessionInput` from the source pipeline. -/
structure IngestSessionInput where
  externalSessionId : String
  sourceSessionPath : Option String := none
  title : Text
  summary : Option Text := none
  startedAt : Option Int := none
  endedAt : Option Int := none
  lastActivityAt : Option Int := none
  messages : List IngestMessageInput
deriving DecidableEq

/-- `fallbackSessionTitle` from the source pipeline. -/
def fallbackSessionTitle (content : Text) (sessionId : Text) : Text :=
  let clean := trimChars (collapseWs (sanitizeImportedText content))
  if clean.isEmpty then "Session ".data ++ sessionId.take 8
  else clean.take 80

/-- The `best` pick of `deriveSessionSummary`: first assistant message, else
first user message, else the first message of any role. -/
def pickBest (messages : List IngestMessageInput) : Option IngestMessageInput :=
  ((messages.find? fun m => m.role = MessageRole.ASSISTANT).orElse
    fun _ => (messages.find? fun m => m.role = MessageRole.USER).orElse
      fun _ => messages.head?)

/-- The `clean` text of `deriveSessionSummary` and `fallbackSessionTitle`:
sanitize, collapse whitespace runs, trim. -/
def cleanText (s : Text) : Text := trimChars (collapseWs (sanitizeImportedText s))

/-- `deriveSessionSummary` from the source pipeline: `none` when there is no
pick or its content cleans to empty; otherwise the cleaned content, truncated
to 177 characters plus an ellipsis when longer than 180. -/
def deriveSessionSummary (messages : List IngestMessageInput) : Option Text :=
  match pickBest messages with
  | none => none
  | some m =>
    if m.content.isEmpty then none
    else
      let clean := cleanText m.content
      if clean.isEmpty then none
      else if 180 < clean.length then some (clean.take 177 ++ "...".data)
      else some clean

theorem find?_append_none {α : Type} (p : α → Bool) (pre l : List α)
    (h : ∀ x ∈ pre, p x = false) :
    List.find? p (pre ++ l) = List.find? p l := by
  induction pre with
  | nil => rfl
  | cons a pre ih =>
    rw [List.cons_append, List.find?_cons, h a (by simp)]
    exact ih fun x hx => h x (by simp [hx])

theorem pickBest_eq_none {messages : List IngestMessageInput} :
    pickBest messages = none ↔ messages = [] := by
  cases messages with
  | nil => simp [pickBest]
  | cons a l =>
    simp only [pickBest, Option.orElse_eq_none]
    simp

theorem cleanText_nil : cleanText [] = [] := by decide

/-- Claim C9: `deriveSessionSummary` picks the first assistant-role message,
else the first user-role message, else the first message of any role; it
returns `none` (not the empty string) when the list is empty or the chosen
message's content is empty after sanitize and whitespace-collapse; otherwise
it returns the cleaned content, where cleaned content longer than 180
characters yields a result of exactly 180 characters ending in "...", while
cleaned content of at most 180 characters (in particular exactly 180) is
returned unmodified with no ellipsis. -/
theorem claim_C9_deriveSessionSummary (messages : List IngestMessageInput) :
    (deriveSessionSummary messages = none ↔
      messages = [] ∨ ∃ m, pickBest messages = some m ∧ cleanText m.content = []) ∧
    (∀ pre m post, messages = pre ++ m :: post → m.role = MessageRole.ASSISTANT →
      (∀ x ∈ pre, x.role ≠ MessageRole.ASSISTANT) → pickBest messages = some m) ∧
    (∀ pre m post, messages = pre ++ m :: post →
      (∀ x ∈ messages, x.role ≠ MessageRole.ASSISTANT) → m.role = MessageRole.USER →
      (∀ x ∈ pre, x.role ≠ MessageRole.USER) → pickBest messages = some m) ∧
    ((∀ x ∈ messages, x.role ≠ MessageRole.ASSISTANT ∧ x.role ≠ MessageRole.USER) →
      pickBest messages = messages.head?) ∧
    (∀ m, pickBest messages = some m → cleanText m.content ≠ [] →
      (cleanText m.content).length ≤ 180 →
      deriveSessionSummary messages = some (cleanText m.content)) ∧
    (∀ m, pickBest messages = some m → 180 < (cleanText m.content).length →
      ∃ t, deriveSessionSummary messages = some t ∧
        t.length = 180 ∧ t.drop 177 = "...".data) := by
  have hcontent : ∀ m : IngestMessageInput, m.content = [] → cleanText m.content = [] := by
    intro m hm
    rw [hm]
    exact cleanText_nil
  refine ⟨?_, ?_, ?_, ?_, ?_, ?_⟩
  · constructor
    · intro hnone
      cases hpick : pickBest messages with
      | none => exact Or.inl (pickBest_eq_none.mp hpick)
      | some m =>
        refine Or.inr ⟨m, rfl, ?_⟩
        by_cases hc : m.content.isEmpty
        · exact hcontent m (List.isEmpty_iff.mp hc)
        · by_cases hcl : (cleanText m.content).isEmpty
          · exact List.isEmpty_iff.mp hcl
          · exfalso
            simp only [deriveSessionSummary, hpick, hc, hcl, if_false] at hnone
            by_cases h180 : 180 < (cleanText m.content).length <;>
              simp [h180] at hnone
    · intro h
      rcases h with h | ⟨m, hpick, hclean⟩
      · subst h
        rfl
      · simp only [deriveSessionSummary, hpick]
        by_cases hc : m.content.isEmpty
        · simp [hc]
        · simp [hc, List.isEmpty_iff, hclean]
  · intro pre m post hsplit hrole hpre
    subst hsplit
    have : List.find? (fun x => x.role = MessageRole.ASSISTANT) (pre ++ m :: post) =
        some m := by
      rw [find?_append_none _ pre _ (by intro x hx; simp [hpre x hx]), List.find?_cons]
      simp [hrole]
    simp [pickBest, this, Option.orElse]
  · intro pre m post hsplit hnoasst hrole hpre
    subst hsplit
    have hfa : List.find? (fun x => x.role = MessageRole.ASSISTANT)
        (pre ++ m :: post) = none := by
      rw [List.find?_eq_none]
      intro x hx
      simp [hnoasst x hx]
    have hfu : List.find? (fun x => x.role = MessageRole.USER) (pre ++ m :: post) =
        some m := by
      rw [find?_append_none _ pre _ (by intro x hx; simp [hpre x hx]), List.find?_cons]
      simp [hrole]
    simp [pickBest, hfa, hfu, Option.orElse]
  · intro hnone
    have hfa : List.find? (fun x => x.role = MessageRole.ASSISTANT) messages = none := by
      rw [List.find?_eq_none]
      intro x hx
      simp [(hnone x hx).1]
    have hfu : List.find? (fun x => x.role = MessageRole.USER) messages = none := by
      rw [List.find?_eq_none]
      intro x hx
      simp [(hnone x hx).2]
    simp [pickBest, hfa, hfu, Option.orElse]
  · intro m hpick hne hle
    have hc : m.content.isEmpty = false := by
      rw [List.isEmpty_eq_false]
      intro hnil
      exact hne (hcontent m hnil)
    have hcl : (cleanText m.content).isEmpty = false := by
      rw [List.isEmpty_eq_false]
      exact hne
    have h180 : ¬ 180 < (cleanText m.content).length := by omega
    simp [deriveSessionSummary, hpick, hc, hcl, h180]
  · intro m hpick hgt
    have hc : m.content.isEmpty = false := by
      rw [List.isEmpty_eq_false]
      intro hnil
      rw [hcontent m hnil] at hgt
      simp at hgt
    have hcl : (cleanText m.content).isEmpty = false := by
      rw [List.isEmpty_eq_false]
      intro hnil
      rw [hnil] at hgt
      simp at hgt
    refine ⟨(cleanText m.content).take 177 ++ "...".data,
      by simp [deriveSessionSummary, hpick, hc, hcl, hgt], ?_, ?_⟩
    · have : ((cleanText m.content).take 177).length = 177 := by
        rw [List.length_take]
        omega
      simp [this]
    · have h177 : ((cleanText m.content).take 177).length = 177 := by
        rw [List.length_take]
        omega
      calc ((cleanText m.content).take 177 ++ "...".data).drop 177
          = ((cleanText m.content).take 177 ++ "...".data).drop
              ((cleanText m.content).take 177).length := by rw [h177]
        _ = "...".data := by rw [List.drop_left]

def witnessUserMsg : IngestMessageInput :=
  { externalMessageId := "m1", role := MessageRole.USER,
    content := "What is TypeScript?".data, ordinal := 0 }

def witnessAsstMsg : IngestMessageInput :=
  { externalMessageId := "m2", role := MessageRole.ASSISTANT,
    content := "TypeScript is a typed superset of JavaScript.".data, ordinal := 1 }

/-- Witness for C9: on a concrete user+assistant pair the summary is derived
from the assistant message. -/
theorem claim_C9_witness :
    pickBest [witnessUserMsg, witnessAsstMsg] = some witnessAsstMsg ∧
    deriveSessionSummary [witnessUserMsg, witnessAsstMsg] =
      some (cleanText witnessAsstMsg.content) := by
  have h := claim_C9_deriveSessionSummary [witnessUserMsg, witnessAsstMsg]
  have hpick := h.2.1 [witnessUserMsg] witnessAsstMsg [] (by decide) (by decide)
    (by decide)
  exact ⟨hpick, h.2.2.2.2.1 witnessAsstMsg hpick (by decide) (by decide)⟩

/-- Output shape of the transcript line parser (`ParsedMessage` in the
source); the role is one of the strings "user", "assistant", "tool". -/
structure ParsedMessage where
  role : String
  content : Text
deriving DecidableEq

/-- Split on runs of two-or-more consecutive newlines (`raw.split(/\n{2,}/)`).
`cur` is the reversed current piece; `nl` counts pending newlines. -/
def splitChunksAux : Text → Nat → Text → List Text
  | cur, nl, [] =>
    if 2 ≤ nl then [cur.reverse, []]
    else [(List.replicate nl '\n' ++ cur).reverse]
  | cur, nl, c :: rest =>
    if c = '\n' then splitChunksAux cur (nl + 1) rest
    else if 2 ≤ nl then cur.reverse :: splitChunksAux [c] 0 rest
    else splitChunksAux (c :: (List.replicate nl '\n' ++ cur)) 0 rest

/-- `raw.split(/\n{2,}/)`. -/
def splitChunks (s : Text) : List Text := splitChunksAux [] 0 s

/-- `chunk.split("\n")`. -/
def splitLines : Text → List Text
  | [] => [[]]
  | c :: rest =>
    if c = '\n' then [] :: splitLines rest
    else
      match splitLines rest with
      | [] => [[c]]
      | l :: ls => (c :: l) :: ls

/-- `firstLine.match(/^label\s*(.*)$/i)` for a lowercase role label ending in
":": the captured trailing text, or `none` when the line does not match. -/
def matchRoleLabel (label : Text) (firstLine : Text) : Option Text :=
  if startsWithCI label firstLine then
    some ((firstLine.drop label.length).dropWhile isJsSpace)
  else none

/-- The chunks retained by `parseTranscript`: split, trimmed, empties
dropped. -/
def retainedChunks (raw : Text) : List Text :=
  ((splitChunks raw).map trimChars).filter fun c => ¬ c.isEmpty

/-- The per-chunk body of `parseTranscript` (the callback of `chunks.map`). -/
def transcriptEntry (index : Nat) (chunk : Text) : Option ParsedMessage :=
  let lines := splitLines chunk
  let firstLine := trimChars (lines.headD [])
  let rest := trimChars (List.intercalate ['\n'] (lines.drop 1))
  if firstLine.isEmpty then none
  else
    match matchRoleLabel "user:".data firstLine with
    | some cap =>
      some ⟨"user", trimChars (cap ++ if rest.isEmpty then [] else '\n' :: rest)⟩
    | none =>
      match matchRoleLabel "assistant:".data firstLine with
      | some cap =>
        some ⟨"assistant", trimChars (cap ++ if rest.isEmpty then [] else '\n' :: rest)⟩
      | none =>
        match matchRoleLabel "tool:".data firstLine with
        | some cap =>
          some ⟨"tool", trimChars (cap ++ if rest.isEmpty then [] else '\n' :: rest)⟩
        | none =>
          some ⟨if index % 2 = 0 then "user" else "assistant", chunk⟩

/-- `parseTranscript` from the source: split into chunks, parse each with its
index, drop the (never occurring) null entries. -/
def parseTranscript (raw : Text) : List ParsedMessage :=
  ((retainedChunks raw).enum.map fun p => transcriptEntry p.1 p.2).reduceOption

/-- Does a retained chunk match one of the three role-label patterns? -/
def chunkIsLabeled (chunk : Text) : Bool :=
  let firstLine := trimChars ((splitLines chunk).headD [])
  (matchRoleLabel "user:".data firstLine).isSome ||
  (matchRoleLabel "assistant:".data firstLine).isSome ||
  (matchRoleLabel "tool:".data firstLine).isSome

theorem trimStart_head {s : Text} (h : trimStart s ≠ []) :
    ∃ c t, trimStart s = c :: t ∧ isJsSpace c = false := by
  induction s with
  | nil => simp [trimStart] at h
  | cons a l ih =>
    by_cases ha : isJsSpace a
    · rw [trimStart, List.dropWhile_cons, if_pos ha] at h ⊢
      exact ih h
    · exact ⟨a, l, by rw [trimStart, List.dropWhile_cons, if_neg ha],
        Bool.eq_false_iff.mpr ha⟩

theorem trimEnd_prefix (s : Text) : trimEnd s <+: s := by
  have h := List.dropWhile_suffix (l := s.reverse) isJsSpace
  have := List.reverse_prefix.mpr h
  simpa [trimEnd] using this

theorem trimChars_head {s : Text} (h : trimChars s ≠ []) :
    ∃ c t, trimChars s = c :: t ∧ isJsSpace c = false := by
  have hpre : trimChars s <+: trimStart s := trimEnd_prefix (trimStart s)
  cases hc : trimChars s with
  | nil => exact absurd hc h
  | cons c t =>
    obtain ⟨u, hu⟩ := hpre
    rw [hc] at hu
    have hts : trimStart s ≠ [] := by
      intro hnil
      rw [hnil] at hu
      simp at hu
    obtain ⟨c2, t2, ht, hsp⟩ := trimStart_head hts
    rw [ht] at hu
    cases hu
    exact ⟨c, t, rfl, hsp⟩

theorem splitLines_ne_nil (s : Text) : splitLines s ≠ [] := by
  cases s with
  | nil => simp [splitLines]
  | cons c rest =>
    rw [splitLines]
    by_cases hc : c = '\n'
    · simp [hc]
    · rw [if_neg hc]
      cases splitLines rest <;> simp

theorem splitLines_head_cons {c : Char} (t : Text) (hc : ¬ c = '\n') :
    ∃ l ls, splitLines (c :: t) = (c :: l) :: ls := by
  rw [splitLines, if_neg hc]
  cases h : splitLines t with
  | nil => exact ⟨[], [], rfl⟩
  | cons l ls => exact ⟨l, ls, rfl⟩

/-- The first line of a nonempty, already-trimmed chunk trims to a nonempty
line. -/
theorem retained_firstLine_ne {chunk : Text} (hne : chunk ≠ [])
    (x : Text) (hx : chunk = trimChars x) :
    trimChars ((splitLines chunk).headD []) ≠ [] := by
  obtain ⟨c, t, hct, hsp⟩ := trimChars_head (s := x) (hx ▸ hne)
  have hchunk : chunk = c :: t := by rw [hx, hct]
  have hcn : ¬ c = '\n' := by
    intro hcnl
    rw [hcnl] at hsp
    simp [isJsSpace] at hsp
  obtain ⟨l, ls, hsplit⟩ := splitLines_head_cons (c := c) t hcn
  rw [hchunk, hsplit]
  simp only [List.headD_cons]
  intro htrim
  have h1 : trimStart (c :: l) = c :: l := by
    rw [trimStart, List.dropWhile_cons, if_neg (by simp [hsp])]
  have h2 : trimEnd (c :: l) = [] := by
    rw [trimChars, h1] at htrim
    exact htrim
  rw [trimEnd, List.reverse_eq_nil_iff, List.dropWhile_eq_nil_iff] at h2
  have := h2 c (by simp)
  rw [hsp] at this
  exact Bool.false_ne_true this

/-- On a chunk whose first line is nonempty and matches no role label, the
parser takes the alternating-role fallback branch. -/
theorem transcriptEntry_unlabeled {chunk : Text} (hne : chunk ≠ [])
    (x : Text) (hx : chunk = trimChars x) (hunl : chunkIsLabeled chunk = false)
    (k : Nat) :
    transcriptEntry k chunk =
      some ⟨if k % 2 = 0 then "user" else "assistant", chunk⟩ := by
  have hfl := retained_firstLine_ne hne x hx
  rw [chunkIsLabeled] at hunl
  simp only [Bool.or_eq_false_iff, Option.not_isSome, Option.isNone_iff_eq_none] at hunl
  rw [transcriptEntry]
  simp only [List.isEmpty_eq_false.mpr hfl, Bool.false_eq_true, if_false,
    hunl.1.1, hunl.1.2, hunl.2]

/-- On a chunk whose first line is nonempty, the parser always produces an
entry (the null branch is unreachable for retained chunks). -/
theorem transcriptEntry_isSome {chunk : Text} (hne : chunk ≠ [])
    (x : Text) (hx : chunk = trimChars x) (k : Nat) :
    (transcriptEntry k chunk).isSome := by
  have hfl := retained_firstLine_ne hne x hx
  rw [transcriptEntry]
  simp only [List.isEmpty_eq_false.mpr hfl, Bool.false_eq_true, if_false]
  cases matchRoleLabel "user:".data (trimChars ((splitLines chunk).headD [])) with
  | some cap => simp
  | none =>
    cases matchRoleLabel "assistant:".data
        (trimChars ((splitLines chunk).headD [])) with
    | some cap => simp
    | none =>
      cases matchRoleLabel "tool:".data
          (trimChars ((splitLines chunk).headD [])) with
      | some cap => simp
      | none => simp

theorem retainedChunks_mem {raw chunk : Text} (h : chunk ∈ retainedChunks raw) :
    chunk ≠ [] ∧ ∃ x, chunk = trimChars x := by
  rw [retainedChunks] at h
  obtain ⟨hmem, hne⟩ := List.mem_filter.mp h
  obtain ⟨x, _, hx⟩ := List.mem_map.mp hmem
  refine ⟨?_, ⟨x, hx.symm⟩⟩
  intro hnil
  rw [hnil] at hne
  simp at hne

theorem entries_get? (cs : List Text) (k i : Nat) (chunk : Text)
    (hall : ∀ c ∈ cs, ∀ j : Nat, (transcriptEntry j c).isSome)
    (hget : cs.get? i = some chunk) :
    (((cs.enumFrom k).map fun p => transcriptEntry p.1 p.2).reduceOption).get? i =
      transcriptEntry (k + i) chunk := by
  induction cs generalizing k i with
  | nil => simp at hget
  | cons c rest ih =>
    obtain ⟨v, hv⟩ := Option.isSome_iff_exists.mp (hall c (by simp) k)
    cases i with
    | zero =>
      rw [List.get?_cons_zero, Option.some_inj] at hget
      subst hget
      simp [List.enumFrom, hv, List.reduceOption_cons_of_some]
    | succ n =>
      rw [List.get?_cons_succ] at hget
      have := ih (fun c hc j => hall c (by simp [hc]) j) (k := k + 1) (i := n) hget
      simp only [List.enumFrom, List.map_cons, hv,
        List.reduceOption_cons_of_some, List.get?_cons_succ]
      rw [this]
      congr 1
      omega

/-- Counterexample to claim C7 as stated: in the transcript
"user: hi\n\nsecond" the only unlabeled chunk is the second retained chunk,
so the claim assigns it role "user" (first unlabeled chunk), but the parser
alternates by the index of the chunk among all retained chunks and assigns
it "assistant". -/
theorem claim_C7_counterexample :
    retainedChunks "user: hi\n\nsecond".data =
        ["user: hi".data, "second".data] ∧
    chunkIsLabeled "user: hi".data = true ∧
    chunkIsLabeled "second".data = false ∧
    (parseTranscript "user: hi\n\nsecond".data).map ParsedMessage.role =
      ["user", "assistant"] := by
  refine ⟨by decide, by decide, by decide, by decide⟩

/-- Claim C7, amended: each retained chunk whose first line does not match
the role-label pattern is assigned a role by alternation over the indices of
all retained chunks (labeled ones included): the chunk at even index gets
role "user", at odd index "assistant", with the chunk text as content. -/
theorem claim_C7_alternation (raw : Text) (i : Nat) (chunk : Text)
    (hchunk : (retainedChunks raw).get? i = some chunk)
    (hunlabeled : chunkIsLabeled chunk = false) :
    (parseTranscript raw).get? i =
      some ⟨if i % 2 = 0 then "user" else "assistant", chunk⟩ := by
  have hall : ∀ c ∈ retainedChunks raw, ∀ j : Nat, (transcriptEntry j c).isSome := by
    intro c hc j
    obtain ⟨hne, x, hx⟩ := retainedChunks_mem hc
    exact transcriptEntry_isSome hne x hx j
  have hmem : chunk ∈ retainedChunks raw := List.get?_mem hchunk
  obtain ⟨hne, x, hx⟩ := retainedChunks_mem hmem
  have h := entries_get? (retainedChunks raw) 0 i chunk hall hchunk
  rw [parseTranscript, List.enum]
  rw [h, Nat.zero_add]
  exact transcriptEntry_unlabeled hne x hx hunlabeled i

/-- Witness for the amended C7 theorem at a concrete transcript: the
unlabeled chunk at index 1 receives role "assistant". -/
theorem claim_C7_witness :
    (parseTranscript "user: hi\n\nsecond".data).get? 1 =
      some ⟨"assistant", "second".data⟩ := by
  have h := claim_C7_alternation "user: hi\n\nsecond".data 1 "second".data
    (by decide) (by decide)
  simpa using h

example :
    parseTranscript "user: Hello\n\nassistant: Hi there".data =
      [⟨"user", "Hello".data⟩, ⟨"assistant", "Hi there".data⟩] := by decide

example :
    (parseTranscript "First chunk\n\nSecond chunk\n\nThird chunk".data).map
        ParsedMessage.role = ["user", "assistant", "user"] := by decide

example :
    parseTranscript "user: First line\nSecond line".data =
      [⟨"user", "First line\nSecond line".data⟩] := by decide

example : parseTranscript "   \n\n   ".data = [] := by decide

/-- `mapClaudeRole` from the source pipeline. -/
def mapClaudeRole : Option String → MessageRole
  | some "assistant" => MessageRole.ASSISTANT
  | some "system" => MessageRole.TOOL
  | some "progress" => MessageRole.TOOL
  | _ => MessageRole.USER

/-- `mapClaudePartType` from the source pipeline. -/
def mapClaudePartType : Option String → MessagePartType
  | some "text" => MessagePartType.TEXT
  | some "thinking" => MessagePartType.REASONING
  | some "tool_use" => MessagePartType.TOOL
  | some "tool_result" => MessagePartType.TOOL
  | _ => MessagePartType.OTHER

/-- `mapOpenCodeRole` from the source pipeline. -/
def mapOpenCodeRole : Option String → MessageRole
  | some "assistant" => MessageRole.ASSISTANT
  | some "tool" => MessageRole.TOOL
  | _ => MessageRole.USER

/-- `mapOpenCodePartType` from the source pipeline. -/
def mapOpenCodePartType : Option String → MessagePartType
  | some "text" => MessagePartType.TEXT
  | some "reasoning" => MessagePartType.REASONING
  | some "tool" => MessagePartType.TOOL
  | some "step-start" => MessagePartType.STEP_START
  | some "step-finish" => MessagePartType.STEP_FINISH
  | some "error" => MessagePartType.ERROR
  | _ => MessagePartType.OTHER

/-- `sha1` content hashing, modelled as a collision-free tagging function. -/
def hashValue (input : String) : String := "sha1:" ++ input

/-- One entry of a Claude event's `content` array: either a JSON object with
the fields the pipeline reads, or a non-object entry (string, number, null),
which the part loop skips. -/
inductive ClaudeContentItem where
  | obj (type_ : Option String) (text : Option Text) (thinking : Option Text)
      (content : Option Text) (name : Option String)
  | nonObj
deriving DecidableEq

/-- A Claude event's `content` value: a plain string, an array of items, or
some other non-nullish JSON value (which yields no parts). -/
inductive ClaudeContent where
  | str (s : Text)
  | arr (items : List ClaudeContentItem)
  | other
deriving DecidableEq

/-- The nested `message` object of a Claude event (fields the pipeline
reads); `none` fields are absent/nullish in the JSON. -/
structure ClaudeMessageObj where
  content : Option ClaudeContent := none
  id : Option String := none
  provider : Option String := none
  model : Option String := none
deriving DecidableEq

/-- A parsed line of a Claude `.jsonl` event log (fields the pipeline reads).
`timestamp` and `snapshotTimestamp` are the epoch-millisecond values of the
already-parsed, valid date strings (`none` = absent or invalid). -/
structure ClaudeEvent where
  sessionId : Option String := none
  timestamp : Option Int := none
  snapshotTimestamp : Option Int := none
  type_ : Option String := none
  uuid : Option String := none
  cwd : Option String := none
  provider : Option String := none
  model : Option String := none
  message : Option ClaudeMessageObj := none
  content : Option ClaudeContent := none
deriving DecidableEq

/-- `extractClaudePartText` from the source pipeline.  The JS falsiness
checks on strings are modelled as emptiness checks. -/
def extractClaudePartText (item : ClaudeContentItem) (partType : MessagePartType) :
    Option Text :=
  match item with
  | ClaudeContentItem.nonObj => none
  | ClaudeContentItem.obj type_ text thinking contentF name =>
    if partType = MessagePartType.TEXT then
      match text.or contentF with
      | some t => if t = [] then none else some (sanitizeImportedText t)
      | none => none
    else if partType = MessagePartType.REASONING then
      match thinking.or text with
      | some t => if t = [] then none else some (sanitizeImportedText t)
      | none => none
    else if partType = MessagePartType.TOOL then
      match name with
      | some n =>
        if n = "" then some ((type_.getD "tool").data)
        else some (("[tool] " ++ n).data)
      | none => some ((type_.getD "tool").data)
    else text

/-- `extractProviderFromClaude` from the source pipeline (always yields a
provider; the vendor default is "anthropic"). -/
def extractProviderFromClaude (parsed : ClaudeEvent) : String :=
  match parsed.provider with
  | some d =>
    if d = "" then (parsed.message.bind fun m => m.provider).getD "anthropic"
    else d
  | none => (parsed.message.bind fun m => m.provider).getD "anthropic"

/-- `extractModelFromClaude` from the source pipeline. -/
def extractModelFromClaude (parsed : ClaudeEvent) : Option String :=
  match parsed.model with
  | some d => if d = "" then parsed.message.bind fun m => m.model else some d
  | none => parsed.message.bind fun m => m.model

/-- The part-collection loop of `buildClaudeMessage` over a content array
(`for (const [index, item] of rawContent.entries())`): accumulates the
visible text of nonempty text-typed parts and one part per object entry,
with the entry's array index as the part ordinal.  Opaque JSON payloads are
modelled by a constant blob. -/
def claudeArrParts (sessionId : String) (uuid : Option String)
    (sourceTimestamp : Option Int) :
    Nat → List ClaudeContentItem → List Text × List IngestMessagePartInput
  | _, [] => ([], [])
  | index, item :: rest =>
    let tail := claudeArrParts sessionId uuid sourceTimestamp (index + 1) rest
    match item with
    | ClaudeContentItem.nonObj => tail
    | ClaudeContentItem.obj type_ text thinking contentF name =>
      let partType := mapClaudePartType type_
      let partText :=
        extractClaudePartText (ClaudeContentItem.obj type_ text thinking contentF name)
          partType
      let visible :=
        match partText with
        | some t => if t ≠ [] ∧ partType = MessagePartType.TEXT then [t] else []
        | none => []
      (visible ++ tail.1,
        { externalPartId :=
            hashValue (sessionId ++ ":" ++ uuid.getD "" ++ ":part:" ++ toString index),
          partType := partType, text := partText, data := some "json",
          sourceTimestamp := sourceTimestamp, ordinal := index } :: tail.2)

/-- `buildClaudeMessage` from the source pipeline. -/
def buildClaudeMessage (parsed : ClaudeEvent) (sessionId : String)
    (filePath : String) : Option IngestMessageInput :=
  let sourceTimestamp := parsed.timestamp
  let role := mapClaudeRole parsed.type_
  let rawContent := (parsed.message.bind fun m => m.content).or parsed.content
  let built : Text × List IngestMessagePartInput :=
    match rawContent with
    | some (ClaudeContent.str s) =>
      let trimmed := sanitizeImportedText s
      if trimmed = [] then ([], [])
      else
        (trimmed,
          [{ externalPartId :=
               hashValue (sessionId ++ ":" ++ parsed.uuid.getD "" ++ ":text"),
             partType := MessagePartType.TEXT, text := some trimmed,
             data := some "json", sourceTimestamp := sourceTimestamp, ordinal := 0 }])
    | some (ClaudeContent.arr items) =>
      let acc := claudeArrParts sessionId parsed.uuid sourceTimestamp 0 items
      (trimChars (List.intercalate "\n\n".data acc.1), acc.2)
    | _ => ([], [])
  if built.1 = [] then none
  else
    some
      { externalMessageId :=
          (parsed.uuid.or (parsed.message.bind fun m => m.id)).getD
            (hashValue (sessionId ++ ":" ++ filePath ++ ":" ++
              String.mk (built.1.take 100))),
        role := role, modelProvider := some (extractProviderFromClaude parsed),
        modelId := extractModelFromClaude parsed, content := built.1,
        sourceTimestamp := sourceTimestamp, metadata := some "json",
        ordinal := 0, parts := built.2 }

/-- The timestamp key of the message sort in both adapters
(`message.sourceTimestamp?.getTime() ?? 0`). -/
def messageSortKey (m : IngestMessageInput) : Int := m.sourceTimestamp.getD 0

/-- The per-session reordering step shared by both adapters: stable sort by
source-timestamp key, then reassign ordinals densely from the sorted order. -/
def sortAndNumberMessages (messages : List IngestMessageInput) :
    List IngestMessageInput :=
  ((messages.mergeSort fun l r => messageSortKey l ≤ messageSortKey r).enum.map
    fun p => { p.2 with ordinal := p.1 })

/-- A parsed OpenCode per-part JSON file (fields the pipeline reads); the
non-object entries have already been filtered out, as in the source. -/
structure OpenCodePartFile where
  id : Option String := none
  type_ : Option String := none
  text : Option Text := none
  tool : Option String := none
  stateTitle : Option String := none
  stateOutput : Option String := none
  timeStart : Option Int := none
deriving DecidableEq

/-- `extractOpenCodePartText` from the source pipeline. -/
def extractOpenCodePartText (part : OpenCodePartFile) (partType : MessagePartType) :
    Option Text :=
  if partType = MessagePartType.TEXT ∨ partType = MessagePartType.REASONING then
    match part.text with
    | some t => if t = [] then none else some (sanitizeImportedText t)
    | none => none
  else if partType = MessagePartType.TOOL then
    some (((part.stateTitle.or part.stateOutput).or part.tool).getD "tool call").data
  else
    part.type_.map String.data

/-- The part assembly of `runOpenCodeSource`: sort the parsed part files by
start time (missing treated as zero), then map each to an ingest part with
its index in the sorted order as the ordinal. -/
def buildOpenCodeParts (messageId : String) (rawParts : List OpenCodePartFile) :
    List IngestMessagePartInput :=
  ((rawParts.mergeSort fun l r => l.timeStart.getD 0 ≤ r.timeStart.getD 0).enum.map
    fun p =>
      { externalPartId := (p.2.id).getD (hashValue (messageId ++ ":part:" ++ toString p.1)),
        partType := mapOpenCodePartType p.2.type_,
        text := extractOpenCodePartText p.2 (mapOpenCodePartType p.2.type_),
        data := some "json",
        sourceTimestamp := p.2.timeStart,
        ordinal := p.1 })

/-- A message with its pipeline-assigned ordinal erased (for stating that
reordering permutes the messages while rewriting only their ordinals). -/
def stripOrdinal (m : IngestMessageInput) : IngestMessageInput :=
  { m with ordinal := 0 }

theorem sortAndNumberMessages_map_ordinal (messages : List IngestMessageInput) :
    ((sortAndNumberMessages messages).map fun m => m.ordinal) =
      List.range messages.length := by
  rw [sortAndNumberMessages, List.map_map, List.enum_eq_enumFrom]
  have : ((fun m : IngestMessageInput => m.ordinal) ∘
      fun p : Nat × IngestMessageInput => { p.2 with ordinal := p.1 }) =
      Prod.fst := by
    funext p
    rfl
  rw [this, List.enumFrom_map_fst, List.length_mergeSort, List.range_eq_range']

theorem sortAndNumberMessages_sorted (messages : List IngestMessageInput) :
    (sortAndNumberMessages messages).Pairwise
      fun a b => messageSortKey a ≤ messageSortKey b := by
  have hs : (messages.mergeSort fun l r => messageSortKey l ≤ messageSortKey r).Pairwise
      fun l r => (messageSortKey l ≤ messageSortKey r : Bool) := by
    apply List.sorted_mergeSort
    · intro a b c h1 h2
      simp only [decide_eq_true_eq] at h1 h2 ⊢
      omega
    · intro a b
      rcases Int.le_total (messageSortKey a) (messageSortKey b) with h | h <;>
        simp [h]
  rw [sortAndNumberMessages, List.enum_eq_enumFrom]
  have key : ∀ (k : Nat) (l : List IngestMessageInput),
      l.Pairwise (fun l r => (messageSortKey l ≤ messageSortKey r : Bool)) →
      ((l.enumFrom k).map fun p => { p.2 with ordinal := p.1 }).Pairwise
        fun a b => messageSortKey a ≤ messageSortKey b := by
    intro k l hl
    induction l generalizing k with
    | nil => simp
    | cons a rest ih =>
      rw [List.pairwise_cons] at hl
      simp only [List.enumFrom, List.map_cons, List.pairwise_cons]
      refine ⟨?_, ih (k + 1) hl.2⟩
      intro b hb
      simp only [List.mem_map] at hb
      obtain ⟨p, hp, hpb⟩ := hb
      have hmem : p.2 ∈ rest := by
        have := List.enumFrom_map_snd (k + 1) rest
        rw [← this]
        exact List.mem_map_of_mem Prod.snd hp
      have := hl.1 p.2 hmem
      simp only [decide_eq_true_eq] at this
      rw [← hpb]
      exact this
  exact key 0 _ hs

theorem sortAndNumberMessages_perm (messages : List IngestMessageInput) :
    ((sortAndNumberMessages messages).map stripOrdinal).Perm
      (messages.map stripOrdinal) := by
  rw [sortAndNumberMessages, List.map_map, List.enum_eq_enumFrom]
  have h1 : (stripOrdinal ∘ fun p : Nat × IngestMessageInput =>
      { p.2 with ordinal := p.1 }) = stripOrdinal ∘ Prod.snd := by
    funext p
    rfl
  rw [h1, ← List.map_map, List.enumFrom_map_snd]
  exact (List.mergeSort_perm messages _).map stripOrdinal

theorem buildOpenCodeParts_map_ordinal (messageId : String)
    (rawParts : List OpenCodePartFile) :
    ((buildOpenCodeParts messageId rawParts).map fun p => p.ordinal) =
      List.range rawParts.length := by
  rw [buildOpenCodeParts, List.map_map, List.enum_eq_enumFrom]
  have : ((fun p : IngestMessagePartInput => p.ordinal) ∘
      fun p : Nat × OpenCodePartFile =>
        ({ externalPartId := (p.2.id).getD (hashValue (messageId ++ ":part:" ++ toString p.1)),
           partType := mapOpenCodePartType p.2.type_,
           text := extractOpenCodePartText p.2 (mapOpenCodePartType p.2.type_),
           data := some "json", sourceTimestamp := p.2.timeStart,
           ordinal := p.1 } : IngestMessagePartInput)) = Prod.fst := by
    funext p
    rfl
  rw [this, List.enumFrom_map_fst, List.length_mergeSort, List.range_eq_range']

theorem claudeArrParts_map_ordinal (sessionId : String) (uuid : Option String)
    (ts : Option Int) (k : Nat) (items : List ClaudeContentItem)
    (hall : ∀ it ∈ items, it ≠ ClaudeContentItem.nonObj) :
    ((claudeArrParts sessionId uuid ts k items).2.map fun p => p.ordinal) =
      List.range' k items.length := by
  induction items generalizing k with
  | nil => simp [claudeArrParts]
  | cons item rest ih =>
    cases item with
    | nonObj => exact absurd rfl (hall ClaudeContentItem.nonObj (by simp))
    | obj ty text thinking contentF name =>
      rw [claudeArrParts]
      simp only [List.map_cons, List.length_cons, List.range'_succ]
      exact congrArg _ (ih (k + 1) fun it hit => hall it (by simp [hit]))

/-- Counterexample to claim C6 as stated: a Claude event whose content array
holds a non-object entry followed by a text entry produces a message with a
single part of ordinal 1 (the raw array index), not the dense zero-based
sequence [0]. -/
theorem claim_C6_counterexample :
    ((buildClaudeMessage
        { sessionId := some "s1", type_ := some "assistant", uuid := some "u1",
          content := some (ClaudeContent.arr
            [ClaudeContentItem.nonObj,
             ClaudeContentItem.obj (some "text") (some "hi".data) none none none]) }
        "s1" "f.jsonl").map fun m => m.parts.map fun p => p.ordinal) = some [1] ∧
    [1] ≠ List.range 1 := by
  exact ⟨by decide, by decide⟩

/-- Claim C6, amended: the pipeline recomputes message ordinals per session
from a stable sort by source timestamp (missing timestamps sort with key 0,
i.e. as the epoch), assigning the dense zero-based sequence 0..n-1; OpenCode
part ordinals are likewise dense 0..m-1, assigned from the sort by part start
time; Claude part ordinals are the raw content-array indices of their
entries — dense 0..m-1 exactly when every array entry is an object (and the
single part of a string-content message has ordinal 0), but not recomputed
from a timestamp sort. -/
theorem claim_C6_ordinals :
    (∀ messages : List IngestMessageInput,
      ((sortAndNumberMessages messages).map fun m => m.ordinal) =
        List.range messages.length ∧
      (sortAndNumberMessages messages).Pairwise
        (fun a b => messageSortKey a ≤ messageSortKey b) ∧
      ((sortAndNumberMessages messages).map stripOrdinal).Perm
        (messages.map stripOrdinal)) ∧
    (∀ (messageId : String) (rawParts : List OpenCodePartFile),
      ((buildOpenCodeParts messageId rawParts).map fun p => p.ordinal) =
        List.range rawParts.length) ∧
    (∀ (sessionId : String) (uuid : Option String) (ts : Option Int)
        (items : List ClaudeContentItem),
      (∀ it ∈ items, it ≠ ClaudeContentItem.nonObj) →
      ((claudeArrParts sessionId uuid ts 0 items).2.map fun p => p.ordinal) =
        List.range items.length) ∧
    (∀ (parsed : ClaudeEvent) (sessionId filePath : String)
        (m : IngestMessageInput) (s : Text),
      (parsed.message.bind fun mo => mo.content).or parsed.content =
        some (ClaudeContent.str s) →
      buildClaudeMessage parsed sessionId filePath = some m →
      (m.parts.map fun p => p.ordinal) = [0]) := by
  refine ⟨?_, ?_, ?_, ?_⟩
  · intro messages
    exact ⟨sortAndNumberMessages_map_ordinal messages,
      sortAndNumberMessages_sorted messages,
      sortAndNumberMessages_perm messages⟩
  · intro messageId rawParts
    exact buildOpenCodeParts_map_ordinal messageId rawParts
  · intro sessionId uuid ts items hall
    rw [claudeArrParts_map_ordinal sessionId uuid ts 0 items hall,
      List.range_eq_range']
  · intro parsed sessionId filePath m s hraw hbuild
    rw [buildClaudeMessage] at hbuild
    simp only [hraw] at hbuild
    by_cases htrim : sanitizeImportedText s = []
    · rw [if_pos htrim] at hbuild
      simp at hbuild
    · rw [if_neg htrim] at hbuild
      simp only [ne_eq, htrim, not_false_eq_true, if_neg, Option.some_inj] at hbuild
      rw [← hbuild]
      rfl

/-- Witness for the amended C6 theorem: an all-object Claude content array
yields dense part ordinals. -/
theorem claim_C6_witness :
    ((claudeArrParts "s1" (some "u1") none 0
        [ClaudeContentItem.obj (some "text") (some "hi".data) none none none]).2.map
      fun p => p.ordinal) = List.range 1 := by
  exact claim_C6_ordinals.2.2.1 "s1" (some "u1") none
    [ClaudeContentItem.obj (some "text") (some "hi".data) none none none]
    (by decide)

/-- A `Session` row (fields written by the adapter persistence path). -/
structure SessionRow where
  id : Nat
  workspaceId : String
  sourceToolId : String
  externalSessionId : String
  sourceSessionPath : Option String := none
  title : Text
  summary : Option Text := none
  startedAt : Option Int := none
  endedAt : Option Int := none
  lastActivityAt : Option Int := none
  importSource : String
  importedAt : Int
deriving DecidableEq

/-- A `Message` row. -/
structure MessageRow where
  id : Nat
  sessionId : Nat
  externalMessageId : String
  role : MessageRole
  modelProvider : Option String := none
  modelId : Option String := none
  content : Text
  metadata : Option String := none
  sourceTimestamp : Option Int := none
  ordinal : Nat
deriving DecidableEq

/-- A `MessagePart` row. -/
structure PartRow where
  id : Nat
  sessionId : Nat
  messageId : Nat
  externalPartId : String
  partType : MessagePartType
  text : Option Text := none
  data : Option String := none
  sourceTimestamp : Option Int := none
  ordinal : Nat
deriving DecidableEq

/-- The session/message/part tables reachable through the Prisma client,
with a shared surrogate-id counter. -/
structure SessStore where
  sessions : List SessionRow := []
  messages : List MessageRow := []
  parts : List PartRow := []
  nextId : Nat := 0
deriving DecidableEq

/-- Natural key of a session row (the `sourceToolId_externalSessionId`
unique constraint). -/
def sessNatKey (r : SessionRow) : String × String :=
  (r.sourceToolId, r.externalSessionId)

/-- Natural key of a message row (the `sessionId_externalMessageId` unique
constraint). -/
def msgNatKey (r : MessageRow) : Nat × String :=
  (r.sessionId, r.externalMessageId)

/-- Natural key of a part row (the `messageId_externalPartId` unique
constraint). -/
def partNatKey (r : PartRow) : Nat × String :=
  (r.messageId, r.externalPartId)

/-- Update the first row matched by `p` (the Prisma unique-upsert update
branch; the unique constraint guarantees at most one match). -/
def updateFirst {α : Type} (p : α → Bool) (f : α → α) : List α → List α
  | [] => []
  | a :: rest => if p a then f a :: rest else a :: updateFirst p f rest

/-- Result of one `upsert` call on one table. -/
structure UpsertResult (ρ : Type) where
  rows : List ρ
  id : Nat
  nextId : Nat
deriving DecidableEq

/-- A Prisma `upsert` against a unique key: update the matching row in place
when present, else append a freshly-created row with a new surrogate id;
either way return the resolved row id. -/
def upsertRow {ρ κ : Type} [DecidableEq κ] (idOf : ρ → Nat) (keyOf : ρ → κ)
    (k : κ) (upd : ρ → ρ) (mk : Nat → ρ) (rows : List ρ) (nextId : Nat) :
    UpsertResult ρ :=
  match rows.find? fun r => keyOf r = k with
  | some r => ⟨updateFirst (fun r => keyOf r = k) upd rows, idOf r, nextId⟩
  | none => ⟨rows ++ [mk nextId], nextId, nextId + 1⟩

/-- The surrogate id stored under a natural key, if any (`findUnique`). -/
def idOfKey {ρ κ : Type} [DecidableEq κ] (idOf : ρ → Nat) (keyOf : ρ → κ)
    (k : κ) (rows : List ρ) : Option Nat :=
  (rows.find? fun r => keyOf r = k).map idOf

/-- The surrogate id of the session with the given natural key, if any. -/
def sessionIdOf (store : SessStore) (sourceToolId externalSessionId : String) :
    Option Nat :=
  idOfKey SessionRow.id sessNatKey (sourceToolId, externalSessionId) store.sessions

/-- The surrogate id of the message with the given natural key, if any. -/
def messageIdOf (store : SessStore) (sessionId : Nat) (externalMessageId : String) :
    Option Nat :=
  idOfKey MessageRow.id msgNatKey (sessionId, externalMessageId) store.messages

/-- The surrogate id of the part with the given natural key, if any. -/
def partIdOf (store : SessStore) (messageId : Nat) (externalPartId : String) :
    Option Nat :=
  idOfKey PartRow.id partNatKey (messageId, externalPartId) store.parts

/-- The update branch of `prisma.session.upsert` (does not touch the natural
key, the surrogate id or `workspaceId`). -/
def updateSessionRow (input : IngestSessionInput) (importSource : String)
    (now : Int) (r : SessionRow) : SessionRow :=
  { r with
      title := input.title,
      summary := input.summary.or (deriveSessionSummary input.messages),
      startedAt := input.startedAt, endedAt := input.endedAt,
      lastActivityAt := input.lastActivityAt,
      sourceSessionPath := input.sourceSessionPath,
      importSource := importSource, importedAt := now }

/-- `prisma.session.upsert` keyed by `(sourceToolId, externalSessionId)`:
update in place when found, else create with a fresh surrogate id.  Returns
the resolved session id. -/
def sessionUpsert (store : SessStore) (sourceToolId workspaceId : String)
    (input : IngestSessionInput) (importSource : String) (now : Int) :
    SessStore × Nat :=
  let u := upsertRow SessionRow.id sessNatKey
    (sourceToolId, input.externalSessionId)
    (updateSessionRow input importSource now)
    (fun newId =>
      { id := newId, workspaceId := workspaceId, sourceToolId := sourceToolId,
        externalSessionId := input.externalSessionId,
        sourceSessionPath := input.sourceSessionPath,
        title := input.title,
        summary := input.summary.or (deriveSessionSummary input.messages),
        startedAt := input.startedAt, endedAt := input.endedAt,
        lastActivityAt := input.lastActivityAt,
        importSource := importSource, importedAt := now })
    store.sessions store.nextId
  ({ store with sessions := u.rows, nextId := u.nextId }, u.id)

/-- The update branch of `prisma.message.upsert`. -/
def updateMessageRow (input : IngestMessageInput) (r : MessageRow) : MessageRow :=
  { r with
      role := input.role, modelProvider := input.modelProvider,
      modelId := input.modelId, content := input.content,
      metadata := input.metadata, sourceTimestamp := input.sourceTimestamp,
      ordinal := input.ordinal }

/-- `prisma.message.upsert` keyed by `(sessionId, externalMessageId)`. -/
def messageUpsert (store : SessStore) (sessionId : Nat)
    (input : IngestMessageInput) : SessStore × Nat :=
  let u := upsertRow MessageRow.id msgNatKey
    (sessionId, input.externalMessageId)
    (updateMessageRow input)
    (fun newId =>
      { id := newId, sessionId := sessionId,
        externalMessageId := input.externalMessageId, role := input.role,
        modelProvider := input.modelProvider, modelId := input.modelId,
        content := input.content, metadata := input.metadata,
        sourceTimestamp := input.sourceTimestamp, ordinal := input.ordinal })
    store.messages store.nextId
  ({ store with messages := u.rows, nextId := u.nextId }, u.id)

/-- The update branch of `prisma.messagePart.upsert` (also rewrites the
denormalized `sessionId`, but not the key fields). -/
def updatePartRow (sessionId : Nat) (input : IngestMessagePartInput)
    (r : PartRow) : PartRow :=
  { r with
      partType := input.partType, text := input.text, data := input.data,
      sourceTimestamp := input.sourceTimestamp, ordinal := input.ordinal,
      sessionId := sessionId }

/-- `prisma.messagePart.upsert` keyed by `(messageId, externalPartId)`. -/
def partUpsert (store : SessStore) (sessionId messageId : Nat)
    (input : IngestMessagePartInput) : SessStore :=
  let u := upsertRow PartRow.id partNatKey
    (messageId, input.externalPartId)
    (updatePartRow sessionId input)
    (fun newId =>
      { id := newId, sessionId := sessionId, messageId := messageId,
        externalPartId := input.externalPartId, partType := input.partType,
        text := input.text, data := input.data,
        sourceTimestamp := input.sourceTimestamp, ordinal := input.ordinal })
    store.parts store.nextId
  { store with parts := u.rows, nextId := u.nextId }

/-- The inner part loop of `persistSessions`: upsert each part under the
resolved message, counting upserts. -/
def persistParts (sessionId messageId : Nat) :
    SessStore → List IngestMessagePartInput → SessStore × Nat
  | store, [] => (store, 0)
  | store, part :: rest =>
    let store1 := partUpsert store sessionId messageId part
    let t := persistParts sessionId messageId store1 rest
    (t.1, t.2 + 1)

/-- The message loop of `persistSessions`: upsert each message under the
resolved session, then its parts.  Returns (store, messages upserted, parts
upserted). -/
def persistMessages (sessionId : Nat) :
    SessStore → List IngestMessageInput → SessStore × Nat × Nat
  | store, [] => (store, 0, 0)
  | store, msg :: rest =>
    let rm := messageUpsert store sessionId msg
    let rp := persistParts sessionId rm.2 rm.1 msg.parts
    let t := persistMessages sessionId rp.1 rest
    (t.1, t.2.1 + 1, t.2.2 + rp.2)

/-- The session loop of `persistSessions`: a session without an external id
or without messages is skipped entirely; otherwise upsert it and its
messages.  Returns (store, sessions, messages, parts upserted). -/
def persistSessionsAux (sourceToolId workspaceId importSource : String)
    (now : Int) :
    SessStore → List IngestSessionInput → SessStore × Nat × Nat × Nat
  | store, [] => (store, 0, 0, 0)
  | store, input :: rest =>
    if input.externalSessionId = "" ∨ input.messages = [] then
      persistSessionsAux sourceToolId workspaceId importSource now store rest
    else
      let rs := sessionUpsert store sourceToolId workspaceId input importSource now
      let rm := persistMessages rs.2 rs.1 input.messages
      let t := persistSessionsAux sourceToolId workspaceId importSource now rm.1 rest
      (t.1, t.2.1 + 1, t.2.2.1 + rm.2.1, t.2.2.2 + rm.2.2)

/-- `SourceRunResult` from the source pipeline. -/
structure SourceRunResult where
  scannedSessions : Nat
  upsertedSessions : Nat
  upsertedMessages : Nat
  upsertedParts : Nat
  maxTimestamp : Option Int := none
  note : Option String := none
deriving DecidableEq

/-- `persistSessions` from the source pipeline. -/
def persistSessions (store : SessStore) (sourceToolId workspaceId : String)
    (importSource : String) (sessions : List IngestSessionInput)
    (maxTimestamp : Option Int) (now : Int) : SessStore × SourceRunResult :=
  let t := persistSessionsAux sourceToolId workspaceId importSource now store sessions
  (t.1,
    { scannedSessions := sessions.length, upsertedSessions := t.2.1,
      upsertedMessages := t.2.2.1, upsertedParts := t.2.2.2,
      maxTimestamp := maxTimestamp })

theorem updateFirst_map {α β : Type} (p : α → Bool) (f : α → α) (g : α → β)
    (hg : ∀ a, g (f a) = g a) (l : List α) :
    (updateFirst p f l).map g = l.map g := by
  induction l with
  | nil => rfl
  | cons a rest ih =>
    rw [updateFirst]
    by_cases hp : p a
    · simp [hp, hg a]
    · simp [hp, ih]

theorem updateFirst_find?_map {ρ γ : Type} (p q : ρ → Bool) (f : ρ → ρ) (h : ρ → γ)
    (hq : ∀ a, q (f a) = q a) (hh : ∀ a, h (f a) = h a) (l : List ρ) :
    ((updateFirst p f l).find? q).map h = (l.find? q).map h := by
  induction l with
  | nil => rfl
  | cons a rest ih =>
    rw [updateFirst]
    by_cases hp : p a
    · rw [if_pos hp, List.find?_cons, List.find?_cons, hq a]
      cases hqa : q a
      · rfl
      · simp [hh a]
    · rw [if_neg hp, List.find?_cons, List.find?_cons]
      cases hqa : q a
      · simpa using ih
      · rfl

theorem find?_append_some {α : Type} {p : α → Bool} {l l2 : List α} {r : α}
    (h : l.find? p = some r) : (l ++ l2).find? p = some r := by
  rw [List.find?_append, h]
  rfl

/-- `idOfKey` factors through the (surrogate id, natural key) projection of
the rows. -/
theorem idOfKey_eq_pairs {ρ κ : Type} [DecidableEq κ] (idOf : ρ → Nat)
    (keyOf : ρ → κ) (k : κ) (l : List ρ) :
    idOfKey idOf keyOf k l =
      ((l.map fun r => (idOf r, keyOf r)).find? fun q => q.2 = k).map
        fun q => q.1 := by
  rw [idOfKey, List.find?_map, Option.map_map]
  rfl

theorem idOfKey_append_some {ρ κ : Type} [DecidableEq κ] (idOf : ρ → Nat)
    (keyOf : ρ → κ) {k : κ} {l l2 : List ρ} {i : Nat}
    (h : idOfKey idOf keyOf k l = some i) :
    idOfKey idOf keyOf k (l ++ l2) = some i := by
  rw [idOfKey] at h ⊢
  cases hf : l.find? fun r => keyOf r = k with
  | none => rw [hf] at h; simp at h
  | some r =>
    rw [hf] at h
    rw [find?_append_some hf]
    exact h

/-- Full behaviour of one `upsertRow` call, split by whether the natural key
was already present: the update branch rewrites no surrogate id and no key
and allocates nothing; the create branch appends exactly one row carrying
the fresh id and the requested key. -/
theorem upsertRow_spec {ρ κ : Type} [DecidableEq κ] (idOf : ρ → Nat)
    (keyOf : ρ → κ) (k : κ) (upd : ρ → ρ) (mk : Nat → ρ) (rows : List ρ)
    (nextId : Nat)
    (hupd : ∀ r, idOf (upd r) = idOf r ∧ keyOf (upd r) = keyOf r)
    (hmk : idOf (mk nextId) = nextId ∧ keyOf (mk nextId) = k) :
    (idOfKey idOf keyOf k
        (upsertRow idOf keyOf k upd mk rows nextId).rows =
      some (upsertRow idOf keyOf k upd mk rows nextId).id) ∧
    (match idOfKey idOf keyOf k rows with
     | some i =>
        (upsertRow idOf keyOf k upd mk rows nextId).id = i ∧
        (upsertRow idOf keyOf k upd mk rows nextId).nextId = nextId ∧
        ((upsertRow idOf keyOf k upd mk rows nextId).rows.map
            fun r => (idOf r, keyOf r)) = rows.map fun r => (idOf r, keyOf r)
     | none =>
        (upsertRow idOf keyOf k upd mk rows nextId).id = nextId ∧
        (upsertRow idOf keyOf k upd mk rows nextId).nextId = nextId + 1 ∧
        ((upsertRow idOf keyOf k upd mk rows nextId).rows.map
            fun r => (idOf r, keyOf r)) =
          (rows.map fun r => (idOf r, keyOf r)) ++ [(nextId, k)]) := by
  cases hf : rows.find? fun r => keyOf r = k with
  | some r =>
    have hkeys : idOfKey idOf keyOf k rows = some (idOf r) := by
      rw [idOfKey, hf]
      rfl
    have hu : upsertRow idOf keyOf k upd mk rows nextId =
        ⟨updateFirst (fun r => keyOf r = k) upd rows, idOf r, nextId⟩ := by
      rw [upsertRow, hf]
    rw [hu, hkeys]
    refine ⟨?_, rfl, rfl, ?_⟩
    · have h2 := updateFirst_find?_map (fun r => keyOf r = k)
        (fun r => keyOf r = k) upd idOf (fun a => by simp [(hupd a).2])
        (fun a => (hupd a).1) rows
      rw [idOfKey, h2, hf]
      rfl
    · exact updateFirst_map _ upd _
        (fun a => by rw [(hupd a).1, (hupd a).2]) rows
  | none =>
    have hkeys : idOfKey idOf keyOf k rows = none := by
      rw [idOfKey, hf]
      rfl
    have hu : upsertRow idOf keyOf k upd mk rows nextId =
        ⟨rows ++ [mk nextId], nextId, nextId + 1⟩ := by
      rw [upsertRow, hf]
    rw [hu, hkeys]
    refine ⟨?_, rfl, rfl, ?_⟩
    · rw [idOfKey, List.find?_append, hf]
      simp [List.find?_cons, hmk.1, hmk.2]
    · rw [List.map_append, List.map_cons, List.map_nil, hmk.1, hmk.2]

theorem idOfKey_congr {ρ κ : Type} [DecidableEq κ] (idOf : ρ → Nat)
    (keyOf : ρ → κ) {l1 l2 : List ρ}
    (h : l1.map (fun r => (idOf r, keyOf r)) = l2.map fun r => (idOf r, keyOf r))
    (k : κ) : idOfKey idOf keyOf k l1 = idOfKey idOf keyOf k l2 := by
  rw [idOfKey_eq_pairs, idOfKey_eq_pairs, h]

theorem idOfKey_mono {ρ κ : Type} [DecidableEq κ] (idOf : ρ → Nat)
    (keyOf : ρ → κ) {l1 l2 : List ρ} {x : Nat × κ}
    (h : l2.map (fun r => (idOf r, keyOf r)) =
      (l1.map fun r => (idOf r, keyOf r)) ++ [x])
    {k : κ} {i : Nat} (hsome : idOfKey idOf keyOf k l1 = some i) :
    idOfKey idOf keyOf k l2 = some i := by
  rw [idOfKey_eq_pairs] at hsome ⊢
  rw [h]
  cases hf : (l1.map fun r => (idOf r, keyOf r)).find? fun q => q.2 = k with
  | none => rw [hf] at hsome; simp at hsome
  | some p =>
    rw [hf] at hsome
    rw [find?_append_some hf]
    exact hsome

/-- Monotone some-stability of one `upsertRow` call for every key. -/
theorem upsertRow_mono {ρ κ : Type} [DecidableEq κ] (idOf : ρ → Nat)
    (keyOf : ρ → κ) (k : κ) (upd : ρ → ρ) (mk : Nat → ρ) (rows : List ρ)
    (nextId : Nat)
    (hupd : ∀ r, idOf (upd r) = idOf r ∧ keyOf (upd r) = keyOf r)
    (hmk : idOf (mk nextId) = nextId ∧ keyOf (mk nextId) = k) :
    ∀ k2 i, idOfKey idOf keyOf k2 rows = some i →
      idOfKey idOf keyOf k2 (upsertRow idOf keyOf k upd mk rows nextId).rows =
        some i := by
  intro k2 i h
  have hs := upsertRow_spec idOf keyOf k upd mk rows nextId hupd hmk
  cases hke : idOfKey idOf keyOf k rows with
  | some j =>
    rw [hke] at hs
    rw [idOfKey_congr idOf keyOf hs.2.2.2 k2]
    exact h
  | none =>
    rw [hke] at hs
    exact idOfKey_mono idOf keyOf hs.2.2.2 h

/-- The id-and-key projections of the three tables (everything the dedup
behaviour of the store depends on). -/
def sessPairs (store : SessStore) : List (Nat × String × String) :=
  store.sessions.map fun r => (SessionRow.id r, sessNatKey r)

def msgPairs (store : SessStore) : List (Nat × Nat × String) :=
  store.messages.map fun r => (MessageRow.id r, msgNatKey r)

def partPairs (store : SessStore) : List (Nat × Nat × String) :=
  store.parts.map fun r => (PartRow.id r, partNatKey r)

theorem sessionIdOf_congr {s1 s2 : SessStore} (h : sessPairs s1 = sessPairs s2)
    (t e : String) : sessionIdOf s1 t e = sessionIdOf s2 t e :=
  idOfKey_congr SessionRow.id sessNatKey h (t, e)

theorem messageIdOf_congr {s1 s2 : SessStore} (h : msgPairs s1 = msgPairs s2)
    (sid : Nat) (em : String) : messageIdOf s1 sid em = messageIdOf s2 sid em :=
  idOfKey_congr MessageRow.id msgNatKey h (sid, em)

theorem partIdOf_congr {s1 s2 : SessStore} (h : partPairs s1 = partPairs s2)
    (mid : Nat) (ep : String) : partIdOf s1 mid ep = partIdOf s2 mid ep :=
  idOfKey_congr PartRow.id partNatKey h (mid, ep)

/-- All natural-key resolutions of `s1` survive into `s2` with the same
surrogate ids (stores only gain rows; updates never rewrite ids or keys). -/
def StoreMono (s1 s2 : SessStore) : Prop :=
  (∀ t e i, sessionIdOf s1 t e = some i → sessionIdOf s2 t e = some i) ∧
  (∀ sid em i, messageIdOf s1 sid em = some i → messageIdOf s2 sid em = some i) ∧
  (∀ mid ep i, partIdOf s1 mid ep = some i → partIdOf s2 mid ep = some i)

theorem StoreMono.refl (s : SessStore) : StoreMono s s :=
  ⟨fun _ _ _ h => h, fun _ _ _ h => h, fun _ _ _ h => h⟩

theorem StoreMono.trans {a b c : SessStore} (h1 : StoreMono a b)
    (h2 : StoreMono b c) : StoreMono a c :=
  ⟨fun t e i h => h2.1 t e i (h1.1 t e i h),
   fun sid em i h => h2.2.1 sid em i (h1.2.1 sid em i h),
   fun mid ep i h => h2.2.2 mid ep i (h1.2.2 mid ep i h)⟩

/-- Every part of the list resolves by natural key under the given message. -/
def PartsEstab (store : SessStore) (mid : Nat)
    (parts : List IngestMessagePartInput) : Prop :=
  ∀ p ∈ parts, (partIdOf store mid p.externalPartId).isSome

/-- Every message of the list resolves by natural key under the given
session, with all its parts resolving under the resolved message. -/
def MsgsEstab (store : SessStore) (sid : Nat)
    (msgs : List IngestMessageInput) : Prop :=
  ∀ m ∈ msgs, ∃ mid, messageIdOf store sid m.externalMessageId = some mid ∧
    PartsEstab store mid m.parts

/-- The session input and everything below it resolves by natural key. -/
def SessEstab (store : SessStore) (t : String) (input : IngestSessionInput) :
    Prop :=
  ∃ sid, sessionIdOf store t input.externalSessionId = some sid ∧
    MsgsEstab store sid input.messages

theorem partsEstab_mono {s1 s2 : SessStore} {mid : Nat}
    {parts : List IngestMessagePartInput} (hm : StoreMono s1 s2)
    (h : PartsEstab s1 mid parts) : PartsEstab s2 mid parts := by
  intro p hp
  obtain ⟨i, hi⟩ := Option.isSome_iff_exists.mp (h p hp)
  exact Option.isSome_iff_exists.mpr ⟨i, hm.2.2 mid p.externalPartId i hi⟩

theorem msgsEstab_mono {s1 s2 : SessStore} {sid : Nat}
    {msgs : List IngestMessageInput} (hm : StoreMono s1 s2)
    (h : MsgsEstab s1 sid msgs) : MsgsEstab s2 sid msgs := by
  intro m hmem
  obtain ⟨mid, hmid, hparts⟩ := h m hmem
  exact ⟨mid, hm.2.1 sid m.externalMessageId mid hmid, partsEstab_mono hm hparts⟩

theorem sessEstab_mono {s1 s2 : SessStore} {t : String}
    {input : IngestSessionInput} (hm : StoreMono s1 s2)
    (h : SessEstab s1 t input) : SessEstab s2 t input := by
  obtain ⟨sid, hsid, hmsgs⟩ := h
  exact ⟨sid, hm.1 t input.externalSessionId sid hsid, msgsEstab_mono hm hmsgs⟩

theorem sessionUpsert_effects (store : SessStore) (t w : String)
    (input : IngestSessionInput) (imp : String) (now : Int) :
    (sessionUpsert store t w input imp now).1.messages = store.messages ∧
    (sessionUpsert store t w input imp now).1.parts = store.parts ∧
    StoreMono store (sessionUpsert store t w input imp now).1 ∧
    sessionIdOf (sessionUpsert store t w input imp now).1 t
      input.externalSessionId = some (sessionUpsert store t w input imp now).2 := by
  refine ⟨rfl, rfl, ⟨?_, fun _ _ _ h => h, fun _ _ _ h => h⟩, ?_⟩
  · intro t2 e2 i h
    refine upsertRow_mono _ _ _ _ _ _ _ ?_ ?_ (t2, e2) i h
    · exact fun r => ⟨rfl, rfl⟩
    · exact ⟨rfl, rfl⟩
  · refine (upsertRow_spec _ _ _ _ _ _ _ ?_ ?_).1
    · exact fun r => ⟨rfl, rfl⟩
    · exact ⟨rfl, rfl⟩

theorem messageUpsert_effects (store : SessStore) (sid : Nat)
    (input : IngestMessageInput) :
    (messageUpsert store sid input).1.sessions = store.sessions ∧
    (messageUpsert store sid input).1.parts = store.parts ∧
    StoreMono store (messageUpsert store sid input).1 ∧
    messageIdOf (messageUpsert store sid input).1 sid
      input.externalMessageId = some (messageUpsert store sid input).2 := by
  refine ⟨rfl, rfl, ⟨fun _ _ _ h => h, ?_, fun _ _ _ h => h⟩, ?_⟩
  · intro sid2 em2 i h
    refine upsertRow_mono _ _ _ _ _ _ _ ?_ ?_ (sid2, em2) i h
    · exact fun r => ⟨rfl, rfl⟩
    · exact ⟨rfl, rfl⟩
  · refine (upsertRow_spec _ _ _ _ _ _ _ ?_ ?_).1
    · exact fun r => ⟨rfl, rfl⟩
    · exact ⟨rfl, rfl⟩

theorem partUpsert_effects (store : SessStore) (sid mid : Nat)
    (input : IngestMessagePartInput) :
    (partUpsert store sid mid input).sessions = store.sessions ∧
    (partUpsert store sid mid input).messages = store.messages ∧
    StoreMono store (partUpsert store sid mid input) ∧
    (partIdOf (partUpsert store sid mid input) mid
      input.externalPartId).isSome := by
  refine ⟨rfl, rfl, ⟨fun _ _ _ h => h, fun _ _ _ h => h, ?_⟩, ?_⟩
  · intro mid2 ep2 i h
    refine upsertRow_mono _ _ _ _ _ _ _ ?_ ?_ (mid2, ep2) i h
    · exact fun r => ⟨rfl, rfl⟩
    · exact ⟨rfl, rfl⟩
  · rw [Option.isSome_iff_exists]
    refine ⟨_, (upsertRow_spec _ _ _ _ _ _ _ ?_ ?_).1⟩
    · exact fun r => ⟨rfl, rfl⟩
    · exact ⟨rfl, rfl⟩

/-- The update branch of `upsertRow`: resolved id, counter and all
id-and-key projections are unchanged. -/
theorem upsertRow_frame {ρ κ : Type} [DecidableEq κ] (idOf : ρ → Nat)
    (keyOf : ρ → κ) (k : κ) (upd : ρ → ρ) (mk : Nat → ρ) (rows : List ρ)
    (nextId : Nat)
    (hupd : ∀ r, idOf (upd r) = idOf r ∧ keyOf (upd r) = keyOf r)
    (hmk : idOf (mk nextId) = nextId ∧ keyOf (mk nextId) = k) {i : Nat}
    (h : idOfKey idOf keyOf k rows = some i) :
    (upsertRow idOf keyOf k upd mk rows nextId).id = i ∧
    (upsertRow idOf keyOf k upd mk rows nextId).nextId = nextId ∧
    ((upsertRow idOf keyOf k upd mk rows nextId).rows.map
      fun r => (idOf r, keyOf r)) = rows.map fun r => (idOf r, keyOf r) := by
  have hs := upsertRow_spec idOf keyOf k upd mk rows nextId hupd hmk
  rw [h] at hs
  exact ⟨hs.2.1, hs.2.2.1, hs.2.2.2⟩

theorem sessionUpsert_frame (store : SessStore) (t w : String)
    (input : IngestSessionInput) (imp : String) (now : Int) {sid : Nat}
    (h : sessionIdOf store t input.externalSessionId = some sid) :
    (sessionUpsert store t w input imp now).2 = sid ∧
    (sessionUpsert store t w input imp now).1.nextId = store.nextId ∧
    sessPairs (sessionUpsert store t w input imp now).1 = sessPairs store ∧
    (sessionUpsert store t w input imp now).1.messages = store.messages ∧
    (sessionUpsert store t w input imp now).1.parts = store.parts := by
  refine ⟨?_, ?_, ?_, rfl, rfl⟩
  · refine (upsertRow_frame _ _ _ _ _ _ _ ?_ ?_ h).1
    · exact fun r => ⟨rfl, rfl⟩
    · exact ⟨rfl, rfl⟩
  · refine (upsertRow_frame _ _ _ _ _ _ _ ?_ ?_ h).2.1
    · exact fun r => ⟨rfl, rfl⟩
    · exact ⟨rfl, rfl⟩
  · refine (upsertRow_frame _ _ _ _ _ _ _ ?_ ?_ h).2.2
    · exact fun r => ⟨rfl, rfl⟩
    · exact ⟨rfl, rfl⟩

theorem messageUpsert_frame (store : SessStore) (sid : Nat)
    (input : IngestMessageInput) {i : Nat}
    (h : messageIdOf store sid input.externalMessageId = some i) :
    (messageUpsert store sid input).2 = i ∧
    (messageUpsert store sid input).1.sessions = store.sessions ∧
    (messageUpsert store sid input).1.parts = store.parts ∧
    msgPairs (messageUpsert store sid input).1 = msgPairs store ∧
    (messageUpsert store sid input).1.nextId = store.nextId := by
  refine ⟨?_, rfl, rfl, ?_, ?_⟩
  · refine (upsertRow_frame _ _ _ _ _ _ _ ?_ ?_ h).1
    · exact fun r => ⟨rfl, rfl⟩
    · exact ⟨rfl, rfl⟩
  · refine (upsertRow_frame _ _ _ _ _ _ _ ?_ ?_ h).2.2
    · exact fun r => ⟨rfl, rfl⟩
    · exact ⟨rfl, rfl⟩
  · refine (upsertRow_frame _ _ _ _ _ _ _ ?_ ?_ h).2.1
    · exact fun r => ⟨rfl, rfl⟩
    · exact ⟨rfl, rfl⟩

theorem partUpsert_frame (store : SessStore) (sid mid : Nat)
    (input : IngestMessagePartInput) {i : Nat}
    (h : partIdOf store mid input.externalPartId = some i) :
    (partUpsert store sid mid input).sessions = store.sessions ∧
    (partUpsert store sid mid input).messages = store.messages ∧
    partPairs (partUpsert store sid mid input) = partPairs store ∧
    (partUpsert store sid mid input).nextId = store.nextId := by
  refine ⟨rfl, rfl, ?_, ?_⟩
  · refine (upsertRow_frame _ _ _ _ _ _ _ ?_ ?_ h).2.2
    · exact fun r => ⟨rfl, rfl⟩
    · exact ⟨rfl, rfl⟩
  · refine (upsertRow_frame _ _ _ _ _ _ _ ?_ ?_ h).2.1
    · exact fun r => ⟨rfl, rfl⟩
    · exact ⟨rfl, rfl⟩

theorem StoreMono.of_pairs {s1 s2 : SessStore}
    (hs : sessPairs s1 = sessPairs s2) (hm : msgPairs s1 = msgPairs s2)
    (hp : partPairs s1 = partPairs s2) : StoreMono s1 s2 := by
  refine ⟨?_, ?_, ?_⟩
  · intro t e i h
    rw [← sessionIdOf_congr hs]
    exact h
  · intro sid em i h
    rw [← messageIdOf_congr hm]
    exact h
  · intro mid ep i h
    rw [← partIdOf_congr hp]
    exact h

theorem msgPairs_congr_list {s1 s2 : SessStore} (h : s1.messages = s2.messages) :
    msgPairs s1 = msgPairs s2 := by
  rw [msgPairs, msgPairs, h]

theorem partPairs_congr_list {s1 s2 : SessStore} (h : s1.parts = s2.parts) :
    partPairs s1 = partPairs s2 := by
  rw [partPairs, partPairs, h]

theorem sessPairs_congr_list {s1 s2 : SessStore} (h : s1.sessions = s2.sessions) :
    sessPairs s1 = sessPairs s2 := by
  rw [sessPairs, sessPairs, h]

theorem persistParts_effects (sid mid : Nat) (store : SessStore)
    (parts : List IngestMessagePartInput) :
    (persistParts sid mid store parts).1.sessions = store.sessions ∧
    (persistParts sid mid store parts).1.messages = store.messages ∧
    StoreMono store (persistParts sid mid store parts).1 ∧
    PartsEstab (persistParts sid mid store parts).1 mid parts := by
  induction parts generalizing store with
  | nil =>
    refine ⟨rfl, rfl, StoreMono.refl store, ?_⟩
    intro p hp
    simp at hp
  | cons p rest ih =>
    have hop := partUpsert_effects store sid mid p
    have hih := ih (partUpsert store sid mid p)
    refine ⟨hih.1.trans hop.1, hih.2.1.trans hop.2.1,
      hop.2.2.1.trans hih.2.2.1, ?_⟩
    intro q hq
    rcases List.mem_cons.mp hq with hq | hq
    · subst hq
      obtain ⟨i, hi⟩ := Option.isSome_iff_exists.mp hop.2.2.2
      exact Option.isSome_iff_exists.mpr
        ⟨i, hih.2.2.1.2.2 mid q.externalPartId i hi⟩
    · exact hih.2.2.2 q hq

theorem persistMessages_effects (sid : Nat) (store : SessStore)
    (msgs : List IngestMessageInput) :
    (persistMessages sid store msgs).1.sessions = store.sessions ∧
    StoreMono store (persistMessages sid store msgs).1 ∧
    MsgsEstab (persistMessages sid store msgs).1 sid msgs := by
  induction msgs generalizing store with
  | nil =>
    refine ⟨rfl, StoreMono.refl store, ?_⟩
    intro m hm
    simp at hm
  | cons m rest ih =>
    have hmu := messageUpsert_effects store sid m
    have hpp := persistParts_effects sid (messageUpsert store sid m).2
      (messageUpsert store sid m).1 m.parts
    have hih := ih (persistParts sid (messageUpsert store sid m).2
      (messageUpsert store sid m).1 m.parts).1
    refine ⟨hih.1.trans (hpp.1.trans hmu.1), ?_, ?_⟩
    · exact (hmu.2.2.1.trans hpp.2.2.1).trans hih.2.1
    · intro m2 hm2
      rcases List.mem_cons.mp hm2 with hm2 | hm2
      · subst hm2
        have hmid := hmu.2.2.2
        have hmid2 := hpp.2.2.1.2.1 _ _ _ hmid
        have hmid3 := hih.2.1.2.1 _ _ _ hmid2
        exact ⟨(messageUpsert store sid m2).2, hmid3,
          partsEstab_mono hih.2.1 hpp.2.2.2⟩
      · exact hih.2.2 m2 hm2

theorem persistSessionsAux_effects (t w imp : String) (now : Int)
    (store : SessStore) (inputs : List IngestSessionInput) :
    StoreMono store (persistSessionsAux t w imp now store inputs).1 ∧
    ∀ input ∈ inputs,
      ¬(input.externalSessionId = "" ∨ input.messages = []) →
      SessEstab (persistSessionsAux t w imp now store inputs).1 t input := by
  induction inputs generalizing store with
  | nil =>
    refine ⟨StoreMono.refl store, ?_⟩
    intro i hi
    simp at hi
  | cons input rest ih =>
    by_cases hskip : input.externalSessionId = "" ∨ input.messages = []
    · have hred : persistSessionsAux t w imp now store (input :: rest) =
          persistSessionsAux t w imp now store rest := by
        simp only [persistSessionsAux]
        rw [if_pos hskip]
      rw [hred]
      have hih := ih store
      refine ⟨hih.1, ?_⟩
      intro i hi hns
      rcases List.mem_cons.mp hi with hi | hi
      · subst hi
        exact absurd hskip hns
      · exact hih.2 i hi hns
    · have hsu := sessionUpsert_effects store t w input imp now
      have hpm := persistMessages_effects
        (sessionUpsert store t w input imp now).2
        (sessionUpsert store t w input imp now).1 input.messages
      have hih := ih (persistMessages (sessionUpsert store t w input imp now).2
        (sessionUpsert store t w input imp now).1 input.messages).1
      have hred : (persistSessionsAux t w imp now store (input :: rest)).1 =
          (persistSessionsAux t w imp now
            (persistMessages (sessionUpsert store t w input imp now).2
              (sessionUpsert store t w input imp now).1 input.messages).1
            rest).1 := by
        simp only [persistSessionsAux]
        rw [if_neg hskip]
      rw [hred]
      refine ⟨(hsu.2.2.1.trans hpm.2.1).trans hih.1, ?_⟩
      intro i hi hns
      rcases List.mem_cons.mp hi with hi | hi
      · subst hi
        have hsid := hsu.2.2.2
        have hsid2 := hpm.2.1.1 _ _ _ hsid
        have hsid3 := hih.1.1 _ _ _ hsid2
        exact ⟨(sessionUpsert store t w i imp now).2, hsid3,
          msgsEstab_mono hih.1 hpm.2.2⟩
      · exact hih.2 i hi hns

theorem persistParts_frame (sid mid : Nat) (store : SessStore)
    (parts : List IngestMessagePartInput) (h : PartsEstab store mid parts) :
    (persistParts sid mid store parts).1.sessions = store.sessions ∧
    (persistParts sid mid store parts).1.messages = store.messages ∧
    partPairs (persistParts sid mid store parts).1 = partPairs store ∧
    (persistParts sid mid store parts).1.nextId = store.nextId := by
  induction parts generalizing store with
  | nil => exact ⟨rfl, rfl, rfl, rfl⟩
  | cons p rest ih =>
    obtain ⟨i, hi⟩ := Option.isSome_iff_exists.mp (h p (by simp))
    have hfr := partUpsert_frame store sid mid p hi
    have hrest : PartsEstab (partUpsert store sid mid p) mid rest := by
      intro q hq
      rw [partIdOf_congr hfr.2.2.1 mid q.externalPartId]
      exact h q (by simp [hq])
    have hih := ih (partUpsert store sid mid p) hrest
    exact ⟨hih.1.trans hfr.1, hih.2.1.trans hfr.2.1,
      hih.2.2.1.trans hfr.2.2.1, hih.2.2.2.trans hfr.2.2.2⟩

theorem persistMessages_frame (sid : Nat) (store : SessStore)
    (msgs : List IngestMessageInput) (h : MsgsEstab store sid msgs) :
    (persistMessages sid store msgs).1.sessions = store.sessions ∧
    msgPairs (persistMessages sid store msgs).1 = msgPairs store ∧
    partPairs (persistMessages sid store msgs).1 = partPairs store ∧
    (persistMessages sid store msgs).1.nextId = store.nextId := by
  induction msgs generalizing store with
  | nil => exact ⟨rfl, rfl, rfl, rfl⟩
  | cons m rest ih =>
    obtain ⟨mid, hmid, hparts⟩ := h m (by simp)
    have hfr := messageUpsert_frame store sid m hmid
    have hparts1 : PartsEstab (messageUpsert store sid m).1 mid m.parts := by
      intro q hq
      rw [partIdOf_congr (partPairs_congr_list hfr.2.2.1) mid q.externalPartId]
      exact hparts q hq
    rw [← hfr.1] at hparts1
    have hpfr := persistParts_frame sid (messageUpsert store sid m).2
      (messageUpsert store sid m).1 m.parts hparts1
    have hrest : MsgsEstab (persistParts sid (messageUpsert store sid m).2
        (messageUpsert store sid m).1 m.parts).1 sid rest := by
      intro m2 hm2
      obtain ⟨mid2, hmid2, hparts2⟩ := h m2 (by simp [hm2])
      refine ⟨mid2, ?_, ?_⟩
      · rw [messageIdOf_congr (msgPairs_congr_list hpfr.2.1) sid
          m2.externalMessageId, messageIdOf_congr hfr.2.2.2.1 sid
          m2.externalMessageId]
        exact hmid2
      · intro q hq
        rw [partIdOf_congr hpfr.2.2.1 mid2 q.externalPartId,
          partIdOf_congr (partPairs_congr_list hfr.2.2.1) mid2
            q.externalPartId]
        exact hparts2 q hq
    have hih := ih (persistParts sid (messageUpsert store sid m).2
      (messageUpsert store sid m).1 m.parts).1 hrest
    refine ⟨hih.1.trans (hpfr.1.trans hfr.2.1), ?_, ?_, ?_⟩
    · exact (hih.2.1.trans (msgPairs_congr_list hpfr.2.1)).trans hfr.2.2.2.1
    · exact (hih.2.2.1.trans hpfr.2.2.1).trans
        (partPairs_congr_list hfr.2.2.1)
    · exact (hih.2.2.2.trans hpfr.2.2.2).trans hfr.2.2.2.2

theorem persistSessionsAux_frame (t w imp : String) (now : Int)
    (store : SessStore) (inputs : List IngestSessionInput)
    (h : ∀ input ∈ inputs,
      ¬(input.externalSessionId = "" ∨ input.messages = []) →
      SessEstab store t input) :
    sessPairs (persistSessionsAux t w imp now store inputs).1 = sessPairs store ∧
    msgPairs (persistSessionsAux t w imp now store inputs).1 = msgPairs store ∧
    partPairs (persistSessionsAux t w imp now store inputs).1 = partPairs store ∧
    (persistSessionsAux t w imp now store inputs).1.nextId = store.nextId := by
  induction inputs generalizing store with
  | nil => exact ⟨rfl, rfl, rfl, rfl⟩
  | cons input rest ih =>
    by_cases hskip : input.externalSessionId = "" ∨ input.messages = []
    · have hred : persistSessionsAux t w imp now store (input :: rest) =
          persistSessionsAux t w imp now store rest := by
        simp only [persistSessionsAux]
        rw [if_pos hskip]
      rw [hred]
      exact ih store fun i hi hns => h i (by simp [hi]) hns
    · obtain ⟨sid, hsid, hmsgs⟩ := h input (by simp) hskip
      have hfr := sessionUpsert_frame store t w input imp now hsid
      have hmsgs1 : MsgsEstab (sessionUpsert store t w input imp now).1 sid
          input.messages := by
        intro m2 hm2
        obtain ⟨mid2, hmid2, hparts2⟩ := hmsgs m2 hm2
        refine ⟨mid2, ?_, ?_⟩
        · rw [messageIdOf_congr (msgPairs_congr_list hfr.2.2.2.1) sid
            m2.externalMessageId]
          exact hmid2
        · intro q hq
          rw [partIdOf_congr (partPairs_congr_list hfr.2.2.2.2) mid2
            q.externalPartId]
          exact hparts2 q hq
      rw [← hfr.1] at hmsgs1
      have hmfr := persistMessages_frame (sessionUpsert store t w input imp now).2
        (sessionUpsert store t w input imp now).1 input.messages hmsgs1
      have hrest : ∀ i ∈ rest,
          ¬(i.externalSessionId = "" ∨ i.messages = []) →
          SessEstab (persistMessages (sessionUpsert store t w input imp now).2
            (sessionUpsert store t w input imp now).1 input.messages).1 t i := by
        intro i hi hns
        obtain ⟨sid2, hsid2, hmsgs2⟩ := h i (by simp [hi]) hns
        refine ⟨sid2, ?_, ?_⟩
        · rw [sessionIdOf_congr (sessPairs_congr_list hmfr.1) t
            i.externalSessionId, sessionIdOf_congr hfr.2.2.1 t
            i.externalSessionId]
          exact hsid2
        · intro m2 hm2
          obtain ⟨mid2, hmid2, hparts2⟩ := hmsgs2 m2 hm2
          refine ⟨mid2, ?_, ?_⟩
          · rw [messageIdOf_congr hmfr.2.1 sid2 m2.externalMessageId,
              messageIdOf_congr (msgPairs_congr_list hfr.2.2.2.1) sid2
                m2.externalMessageId]
            exact hmid2
          · intro q hq
            rw [partIdOf_congr hmfr.2.2.1 mid2 q.externalPartId,
              partIdOf_congr (partPairs_congr_list hfr.2.2.2.2) mid2
                q.externalPartId]
            exact hparts2 q hq
      have hih := ih (persistMessages (sessionUpsert store t w input imp now).2
        (sessionUpsert store t w input imp now).1 input.messages).1 hrest
      have hred : (persistSessionsAux t w imp now store (input :: rest)).1 =
          (persistSessionsAux t w imp now
            (persistMessages (sessionUpsert store t w input imp now).2
              (sessionUpsert store t w input imp now).1 input.messages).1
            rest).1 := by
        simp only [persistSessionsAux]
        rw [if_neg hskip]
      rw [hred]
      refine ⟨?_, ?_, ?_, ?_⟩
      · exact (hih.1.trans (sessPairs_congr_list hmfr.1)).trans hfr.2.2.1
      · exact (hih.2.1.trans hmfr.2.1).trans
          (msgPairs_congr_list hfr.2.2.2.1)
      · exact (hih.2.2.1.trans hmfr.2.2.1).trans
          (partPairs_congr_list hfr.2.2.2.2)
      · exact (hih.2.2.2.trans hmfr.2.2.2).trans hfr.2.1

/-- Claim C1: re-running the same persistence pass over an unchanged session
list resolves every session, message and part to an update of the records
left by the first pass: the id-and-key projections of all three tables, the
surrogate-id counter, and the table sizes are unchanged — nothing new is
created on the second run. -/
theorem claim_C1_idempotent (store : SessStore) (t w imp : String)
    (sessions : List IngestSessionInput) (maxTs : Option Int)
    (now1 now2 : Int) :
    sessPairs (persistSessions (persistSessions store t w imp sessions maxTs
        now1).1 t w imp sessions maxTs now2).1 =
      sessPairs (persistSessions store t w imp sessions maxTs now1).1 ∧
    msgPairs (persistSessions (persistSessions store t w imp sessions maxTs
        now1).1 t w imp sessions maxTs now2).1 =
      msgPairs (persistSessions store t w imp sessions maxTs now1).1 ∧
    partPairs (persistSessions (persistSessions store t w imp sessions maxTs
        now1).1 t w imp sessions maxTs now2).1 =
      partPairs (persistSessions store t w imp sessions maxTs now1).1 ∧
    (persistSessions (persistSessions store t w imp sessions maxTs now1).1
        t w imp sessions maxTs now2).1.nextId =
      (persistSessions store t w imp sessions maxTs now1).1.nextId ∧
    (persistSessions (persistSessions store t w imp sessions maxTs now1).1
        t w imp sessions maxTs now2).1.sessions.length =
      (persistSessions store t w imp sessions maxTs now1).1.sessions.length ∧
    (persistSessions (persistSessions store t w imp sessions maxTs now1).1
        t w imp sessions maxTs now2).1.messages.length =
      (persistSessions store t w imp sessions maxTs now1).1.messages.length ∧
    (persistSessions (persistSessions store t w imp sessions maxTs now1).1
        t w imp sessions maxTs now2).1.parts.length =
      (persistSessions store t w imp sessions maxTs now1).1.parts.length := by
  have hestab := (persistSessionsAux_effects t w imp now1 store sessions).2
  have hframe := persistSessionsAux_frame t w imp now2
    (persistSessionsAux t w imp now1 store sessions).1 sessions hestab
  have hlen : ∀ s : SessStore, s.sessions.length = (sessPairs s).length := by
    intro s
    rw [sessPairs, List.length_map]
  have hlenm : ∀ s : SessStore, s.messages.length = (msgPairs s).length := by
    intro s
    rw [msgPairs, List.length_map]
  have hlenp : ∀ s : SessStore, s.parts.length = (partPairs s).length := by
    intro s
    rw [partPairs, List.length_map]
  refine ⟨hframe.1, hframe.2.1, hframe.2.2.1, hframe.2.2.2, ?_, ?_, ?_⟩
  · rw [hlen, hlen]
    exact congrArg List.length hframe.1
  · rw [hlenm, hlenm]
    exact congrArg List.length hframe.2.1
  · rw [hlenp, hlenp]
    exact congrArg List.length hframe.2.2.1

/-- Crash semantics for the part loop of `persistSessions`: each upsert
statement consumes one unit of budget; when the budget is exhausted the
store write throws.  Because the source wraps the upserts in no transaction,
the effects of the statements already executed remain in the store; `none`
marks the crashed (thrown) outcome. -/
def persistPartsCrash (sid mid : Nat) :
    Nat → SessStore → List IngestMessagePartInput → SessStore × Option Nat
  | b, store, [] => (store, some b)
  | 0, store, _ :: _ => (store, none)
  | b + 1, store, p :: rest =>
    persistPartsCrash sid mid b (partUpsert store sid mid p) rest

/-- Crash semantics for the message loop of `persistSessions`. -/
def persistMessagesCrash (sid : Nat) :
    Nat → SessStore → List IngestMessageInput → SessStore × Option Nat
  | b, store, [] => (store, some b)
  | 0, store, _ :: _ => (store, none)
  | b + 1, store, m :: rest =>
    let rm := messageUpsert store sid m
    match persistPartsCrash sid rm.2 b rm.1 m.parts with
    | (s2, some b2) => persistMessagesCrash sid b2 s2 rest
    | (s2, none) => (s2, none)

/-- Crash semantics for the session loop of `persistSessions`: the crash
(`none`) aborts the rest of the run, but nothing already written is rolled
back. -/
def persistSessionsCrash (t w imp : String) (now : Int) :
    Nat → SessStore → List IngestSessionInput → SessStore × Option Nat
  | b, store, [] => (store, some b)
  | b, store, input :: rest =>
    if input.externalSessionId = "" ∨ input.messages = [] then
      persistSessionsCrash t w imp now b store rest
    else
      match b with
      | 0 => (store, none)
      | b + 1 =>
        let rs := sessionUpsert store t w input imp now
        match persistMessagesCrash rs.2 b rs.1 input.messages with
        | (s2, some b2) => persistSessionsCrash t w imp now b2 s2 rest
        | (s2, none) => (s2, none)

/-- The two-message session used to exhibit the missing transaction. -/
def c3Session : IngestSessionInput :=
  { externalSessionId := "sess-1", title := "t".data,
    messages :=
      [{ externalMessageId := "m1", role := MessageRole.USER,
         content := "first".data, ordinal := 0 },
       { externalMessageId := "m2", role := MessageRole.ASSISTANT,
         content := "second".data, ordinal := 1 }] }

/-- Claim C3 is violated by the code: the adapter persistence path issues
its session/message/part upserts as bare sequential statements with no
transaction, so a write failure after the first message upsert (budget 2:
the session upsert and one message upsert succeed, then the store throws)
leaves the session row and exactly one of its two messages persisted — a
partial session/message set for that unit of work, which the claim says
cannot be left behind. -/
theorem claim_C3_no_transaction :
    (persistSessionsCrash "tool" "ws" "imp" 0 2 {} [c3Session]).2 = none ∧
    (persistSessionsCrash "tool" "ws" "imp" 0 2 {} [c3Session]).1.sessions.length = 1 ∧
    (persistSessionsCrash "tool" "ws" "imp" 0 2 {} [c3Session]).1.messages.length = 1 ∧
    c3Session.messages.length = 2 := by
  refine ⟨by decide, by decide, by decide, by decide⟩

/-- Task status enum (Prisma `TaskStatus`). -/
inductive TaskStatus
  | OPEN
  | IN_PROGRESS
  | DONE
  | CANCELLED
deriving DecidableEq

/-- Task priority enum (Prisma `TaskPriority`). -/
inductive TaskPriority
  | LOW
  | MEDIUM
  | HIGH
deriving DecidableEq

/-- Post-validation role values of a canonical bundle message
(`z.enum(["user", "assistant", "tool"])`). -/
inductive CanonRole
  | user
  | assistant
  | tool
deriving DecidableEq

/-- Post-validation task status values. -/
inductive CanonTaskStatus
  | open_
  | in_progress
  | done
  | cancelled
deriving DecidableEq

/-- Post-validation task priority values. -/
inductive CanonTaskPriority
  | low
  | medium
  | high
deriving DecidableEq

/-- `TASK_STATUS_MAP`. -/
def TASK_STATUS_MAP : CanonTaskStatus → TaskStatus
  | CanonTaskStatus.open_ => TaskStatus.OPEN
  | CanonTaskStatus.in_progress => TaskStatus.IN_PROGRESS
  | CanonTaskStatus.done => TaskStatus.DONE
  | CanonTaskStatus.cancelled => TaskStatus.CANCELLED

/-- `TASK_PRIORITY_MAP`. -/
def TASK_PRIORITY_MAP : CanonTaskPriority → TaskPriority
  | CanonTaskPriority.low => TaskPriority.LOW
  | CanonTaskPriority.medium => TaskPriority.MEDIUM
  | CanonTaskPriority.high => TaskPriority.HIGH

/-- `MESSAGE_ROLE_MAP`. -/
def MESSAGE_ROLE_MAP : CanonRole → MessageRole
  | CanonRole.user => MessageRole.USER
  | CanonRole.assistant => MessageRole.ASSISTANT
  | CanonRole.tool => MessageRole.TOOL

/-- A validated canonical bundle message. -/
structure CanonicalMessage where
  role : CanonRole
  content : Text
  metadata : Option String := none
  promptTokens : Option Nat := none
  completionTokens : Option Nat := none
  totalTokens : Option Nat := none
deriving DecidableEq

/-- A validated canonical bundle task. -/
structure CanonicalTask where
  title : Text
  description : Option Text := none
  status : Option CanonTaskStatus := none
  priority : Option CanonTaskPriority := none
deriving DecidableEq

/-- A validated canonical bundle artifact. -/
structure CanonicalArtifact where
  type_ : String
  name : String
  content : Text
  messageIndex : Option Nat := none
  metadata : Option String := none
deriving DecidableEq

/-- The session header of a validated canonical bundle (date strings are
modelled by their parsed epoch-millisecond values). -/
structure CanonicalSessionHeader where
  title : Text
  summary : Option Text := none
  externalSessionId : Option String := none
  startedAt : Option Int := none
  endedAt : Option Int := none
deriving DecidableEq

/-- `CanonicalSessionBundle` after `canonicalBundleSchema.parse`. -/
structure CanonicalSessionBundle where
  session : CanonicalSessionHeader
  messages : List CanonicalMessage
  tasks : Option (List CanonicalTask) := none
  artifacts : Option (List CanonicalArtifact) := none
  tags : Option (List Text) := none
deriving DecidableEq

/-- A `Session` row as written by the canonical-bundle path (the external
session id is nullable there). -/
structure CanonSessionRow where
  id : Nat
  workspaceId : String
  sourceToolId : String
  externalSessionId : Option String := none
  title : Text
  summary : Option Text := none
  startedAt : Option Int := none
  endedAt : Option Int := none
  importSource : String
  importedAt : Int
deriving DecidableEq

/-- A `Message` row as written by the canonical-bundle path. -/
structure CanonMessageRow where
  id : Nat
  sessionId : Nat
  role : MessageRole
  content : Text
  metadata : Option String := none
  promptTokens : Option Nat := none
  completionTokens : Option Nat := none
  totalTokens : Option Nat := none
  ordinal : Nat
deriving DecidableEq

/-- A `Task` row. -/
structure TaskRow where
  id : Nat
  sessionId : Nat
  title : Text
  description : Option Text := none
  status : TaskStatus
  priority : TaskPriority
deriving DecidableEq

/-- A `Tag` row. -/
structure TagRow where
  id : Nat
  name : Text
  slug : Text
deriving DecidableEq

/-- A `SessionTag` link row. -/
structure SessionTagRow where
  sessionId : Nat
  tagId : Nat
deriving DecidableEq

/-- An `Artifact` row. -/
structure ArtifactRow where
  id : Nat
  sessionId : Nat
  messageId : Option Nat := none
  type_ : String
  name : String
  content : Text
  metadata : Option String := none
deriving DecidableEq

/-- A `MetricSnapshot` row; the naive cost estimate `totalTokens / 1e6` is
stored in parts-per-million units (its numerator) to stay in exact
arithmetic. -/
structure MetricSnapshotRow where
  id : Nat
  sessionId : Nat
  sourceToolId : String
  promptTokens : Nat
  completionTokens : Nat
  totalTokens : Nat
  estimatedCostPpm : Nat
deriving DecidableEq

/-- The tables touched by `ingestCanonicalBundle`, with a shared surrogate-id
counter. -/
structure CanonStore where
  sessions : List CanonSessionRow := []
  messages : List CanonMessageRow := []
  tasks : List TaskRow := []
  tags : List TagRow := []
  sessionTags : List SessionTagRow := []
  artifacts : List ArtifactRow := []
  metricSnapshots : List MetricSnapshotRow := []
  nextId : Nat := 0
deriving DecidableEq

/-- JS `String.prototype.toLowerCase` on the tag alphabet. -/
def toLowerText (s : Text) : Text := s.map Char.toLower

/-- `replaceAll(/\s+/g, "-")` for tag slugs. -/
def slugifyAux : Bool → Text → Text
  | _, [] => []
  | inRun, c :: rest =>
    if isJsSpace c then
      if inRun then slugifyAux true rest
      else '-' :: slugifyAux true rest
    else c :: slugifyAux false rest

/-- The tag slug of `ingestCanonicalBundle`:
`tagName.toLowerCase().replaceAll(/\s+/g, "-")`. -/
def tagSlug (tagName : Text) : Text := slugifyAux false (toLowerText tagName)

/-- The per-message create loop of `ingestCanonicalBundle`: creates one row
per message with its list index as ordinal, and accumulates the token sums
(`totalTokens` falls back to prompt+completion per message). -/
def canonCreateMessages (sessionId : Nat) :
    CanonStore → Nat → List CanonicalMessage →
      CanonStore × List (Nat × Nat) × Nat × Nat × Nat
  | store, _, [] => (store, [], 0, 0, 0)
  | store, ordinal, m :: rest =>
    let row : CanonMessageRow :=
      { id := store.nextId, sessionId := sessionId,
        role := MESSAGE_ROLE_MAP m.role, content := m.content,
        metadata := m.metadata, promptTokens := m.promptTokens,
        completionTokens := m.completionTokens, totalTokens := m.totalTokens,
        ordinal := ordinal }
    let store1 :=
      { store with
          messages := store.messages ++ [row], nextId := store.nextId + 1 }
    let t := canonCreateMessages sessionId store1 (ordinal + 1) rest
    (t.1, (row.id, ordinal) :: t.2.1,
      (m.promptTokens.getD 0) + t.2.2.1,
      (m.completionTokens.getD 0) + t.2.2.2.1,
      (m.totalTokens.getD
        ((m.promptTokens.getD 0) + (m.completionTokens.getD 0))) + t.2.2.2.2)

/-- The task create loop. -/
def canonCreateTasks (sessionId : Nat) :
    CanonStore → List CanonicalTask → CanonStore
  | store, [] => store
  | store, task :: rest =>
    canonCreateTasks sessionId
      { store with
          tasks := store.tasks ++
            [{ id := store.nextId, sessionId := sessionId, title := task.title,
               description := task.description,
               status := TASK_STATUS_MAP (task.status.getD CanonTaskStatus.open_),
               priority :=
                 TASK_PRIORITY_MAP (task.priority.getD CanonTaskPriority.medium) }],
          nextId := store.nextId + 1 }
      rest

/-- The tag loop: skip blank names, upsert the tag by slug (empty update),
then always create the session-tag link. -/
def canonCreateTags (sessionId : Nat) :
    CanonStore → List Text → CanonStore
  | store, [] => store
  | store, rawTagName :: rest =>
    let tagName := trimChars rawTagName
    if tagName = [] then canonCreateTags sessionId store rest
    else
      let slug := tagSlug tagName
      let tagAndStore : Nat × CanonStore :=
        match store.tags.find? fun tg => tg.slug = slug with
        | some tg => (tg.id, store)
        | none =>
          (store.nextId,
            { store with
                tags := store.tags ++
                  [{ id := store.nextId, name := tagName, slug := slug }],
                nextId := store.nextId + 1 })
      let store2 := tagAndStore.2
      canonCreateTags sessionId
        { store2 with
            sessionTags := store2.sessionTags ++
              [{ sessionId := sessionId, tagId := tagAndStore.1 }] }
        rest

/-- The artifact create loop; `messageIndex` links to the message record
with that ordinal, when one exists. -/
def canonCreateArtifacts (sessionId : Nat) (messageRecords : List (Nat × Nat)) :
    CanonStore → List CanonicalArtifact → CanonStore
  | store, [] => store
  | store, artifact :: rest =>
    let messageId :=
      match artifact.messageIndex with
      | some idx => (messageRecords.find? fun rec => rec.2 = idx).map fun rec => rec.1
      | none => none
    canonCreateArtifacts sessionId messageRecords
      { store with
          artifacts := store.artifacts ++
            [{ id := store.nextId, sessionId := sessionId,
               messageId := messageId, type_ := artifact.type_,
               name := artifact.name, content := artifact.content,
               metadata := artifact.metadata }],
          nextId := store.nextId + 1 }
      rest

/-- `ingestCanonicalBundle` from the source (the body of the transaction;
validation by `canonicalBundleSchema.parse` is presupposed by the typed
bundle).  Returns the updated store plus `(sessionId, deduplicated)`. -/
def ingestCanonicalBundle (bundle : CanonicalSessionBundle)
    (workspaceId sourceToolId importSource : String) (store : CanonStore)
    (now : Int) : CanonStore × Nat × Bool :=
  let maybeDuplicate : Option CanonSessionRow :=
    match bundle.session.externalSessionId with
    | some e =>
      if e = "" then none
      else
        store.sessions.find? fun r =>
          r.sourceToolId = sourceToolId ∧ r.externalSessionId = some e
    | none => none
  match maybeDuplicate with
  | some dup => (store, dup.id, true)
  | none =>
    let sessionRow : CanonSessionRow :=
      { id := store.nextId, workspaceId := workspaceId,
        sourceToolId := sourceToolId, title := bundle.session.title,
        summary := bundle.session.summary,
        externalSessionId := bundle.session.externalSessionId,
        startedAt := bundle.session.startedAt,
        endedAt := bundle.session.endedAt,
        importSource := importSource, importedAt := now }
    let store1 :=
      { store with
          sessions := store.sessions ++ [sessionRow],
          nextId := store.nextId + 1 }
    let rm := canonCreateMessages sessionRow.id store1 0 bundle.messages
    let store2 := canonCreateTasks sessionRow.id rm.1 (bundle.tasks.getD [])
    let store3 := canonCreateTags sessionRow.id store2 (bundle.tags.getD [])
    let store4 := canonCreateArtifacts sessionRow.id rm.2.1 store3
      (bundle.artifacts.getD [])
    let store5 :=
      { store4 with
          metricSnapshots := store4.metricSnapshots ++
            [{ id := store4.nextId, sessionId := sessionRow.id,
               sourceToolId := sourceToolId, promptTokens := rm.2.2.1,
               completionTokens := rm.2.2.2.1, totalTokens := rm.2.2.2.2,
               estimatedCostPpm := rm.2.2.2.2 }],
          nextId := store4.nextId + 1 }
    (store5, sessionRow.id, false)

/-- Claim C10: calling the canonical-bundle entry point with a bundle whose
external session id already resolves to an existing session of the same
source tool returns that session's id with `deduplicated = true` and
performs no write at all: the store (sessions, messages, tasks, tags,
session-tag links, artifacts, metric snapshots, id counter) is returned
unchanged. -/
theorem claim_C10_dedup (store : CanonStore) (bundle : CanonicalSessionBundle)
    (workspaceId sourceToolId importSource : String) (now : Int) (e : String)
    (dup : CanonSessionRow) (he : bundle.session.externalSessionId = some e)
    (hne : e ≠ "")
    (hfind : (store.sessions.find? fun r =>
      r.sourceToolId = sourceToolId ∧ r.externalSessionId = some e) = some dup) :
    ingestCanonicalBundle bundle workspaceId sourceToolId importSource store
      now = (store, dup.id, true) := by
  rw [ingestCanonicalBundle]
  simp only [he, if_neg hne, hfind]

/-- The pre-existing session used by the C10 witness. -/
def c10Existing : CanonSessionRow :=
  { id := 7, workspaceId := "ws", sourceToolId := "tool",
    externalSessionId := some "ext-1", title := "old".data,
    importSource := "manual", importedAt := 5 }

/-- The bundle used by the C10 witness. -/
def c10Bundle : CanonicalSessionBundle :=
  { session := { title := "new".data, externalSessionId := some "ext-1" },
    messages := [{ role := CanonRole.user, content := "hello".data }] }

/-- Witness for C10 at a concrete store and bundle: the call returns the
existing id with `deduplicated = true` and the unchanged store. -/
theorem claim_C10_witness :
    ingestCanonicalBundle c10Bundle "ws" "tool" "manual"
        { sessions := [c10Existing], nextId := 8 } 99 =
      ({ sessions := [c10Existing], nextId := 8 }, 7, true) := by
  have h := claim_C10_dedup { sessions := [c10Existing], nextId := 8 }
    c10Bundle "ws" "tool" "manual" 99 "ext-1" c10Existing (by decide)
    (by decide) (by decide)
  exact h

/-- `IngestionSourceType`; `OTHER` stands for any enum member the cycle does
not support (the source code defends against such values explicitly). -/
inductive IngestionSourceType
  | CLAUDE
  | OPENCODE
  | OTHER
deriving DecidableEq

/-- `IngestionRunStatus`. -/
inductive IngestionRunStatus
  | RUNNING
  | SUCCESS
  | FAILED
deriving DecidableEq

/-- An `IngestionSource` row. -/
structure IngestionSourceRow where
  id : String
  key : String
  type_ : IngestionSourceType
  name : String
  rootPath : Option String := none
  dbPath : Option String := none
  lookbackDays : Int
  pollIntervalSec : Int := 30
  isEnabled : Bool := true
  lastRunAt : Option Int := none
  lastSuccessAt : Option Int := none
  lastErrorAt : Option Int := none
  statusMessage : Option String := none
  createdAt : Int
deriving DecidableEq

/-- An `IngestionRun` row. -/
structure IngestionRunRow where
  id : Nat
  sourceId : String
  mode : String
  status : IngestionRunStatus
  finishedAt : Option Int := none
  scannedSessions : Nat := 0
  upsertedSessions : Nat := 0
  upsertedMessages : Nat := 0
  upsertedParts : Nat := 0
  errorCount : Nat := 0
  note : Option String := none
deriving DecidableEq

/-- An `IngestionError` row. -/
structure IngestionErrorRow where
  sourceId : String
  runId : Nat
  code : String
  message : String
deriving DecidableEq

/-- An `IngestionCheckpoint` row, keyed by `(sourceId, cursorKey)`; the ISO
timestamp string in `cursorValue` is modelled by its epoch-millisecond
value (serialization and parsing are mutually inverse). -/
structure CheckpointRow where
  sourceId : String
  cursorKey : String
  cursorValue : Int
deriving DecidableEq

/-- The orchestrator-visible database state: source/run/error/checkpoint
tables, the adapter-facing session store, a run-id counter and the clock
(one logical value per cycle). -/
structure CycleState where
  sources : List IngestionSourceRow := []
  runs : List IngestionRunRow := []
  errors : List IngestionErrorRow := []
  checkpoints : List CheckpointRow := []
  sess : SessStore := {}
  nextRunId : Nat := 0
  now : Int := 0
deriving DecidableEq

/-- `getCheckpoint` from the source pipeline. -/
def getCheckpoint (st : CycleState) (sourceId cursorKey : String) : Option Int :=
  (st.checkpoints.find? fun c =>
    c.sourceId = sourceId ∧ c.cursorKey = cursorKey).map fun c => c.cursorValue

/-- `setCheckpoint` from the source pipeline (upsert keyed by
`(sourceId, cursorKey)`). -/
def setCheckpoint (st : CycleState) (sourceId cursorKey : String)
    (cursorValue : Int) : CycleState :=
  match st.checkpoints.find? fun c =>
      c.sourceId = sourceId ∧ c.cursorKey = cursorKey with
  | some _ =>
    { st with
        checkpoints := updateFirst
          (fun c => c.sourceId = sourceId ∧ c.cursorKey = cursorKey)
          (fun c => { c with cursorValue := cursorValue }) st.checkpoints }
  | none =>
    { st with
        checkpoints := st.checkpoints ++
          [{ sourceId := sourceId, cursorKey := cursorKey,
             cursorValue := cursorValue }] }

/-- `prisma.ingestionSource.update` keyed by id. -/
def updateSource (st : CycleState) (id : String)
    (f : IngestionSourceRow → IngestionSourceRow) : CycleState :=
  { st with sources := updateFirst (fun s => s.id = id) f st.sources }

/-- `prisma.ingestionRun.update` keyed by id. -/
def updateRun (st : CycleState) (id : Nat)
    (f : IngestionRunRow → IngestionRunRow) : CycleState :=
  { st with runs := updateFirst (fun r => r.id = id) f st.runs }

/-- `findUnique`-style source lookup by id. -/
def getSource (st : CycleState) (id : String) : Option IngestionSourceRow :=
  st.sources.find? fun s => s.id = id

/-- The default configuration constants (environment values read once at
process start). -/
def DEFAULT_LOOKBACK_DAYS : Int := 30

def DEFAULT_CLAUDE_ROOT : String := "~/.claude"

def DEFAULT_OPENCODE_HOME : String := "~/.local/share/opencode"

/-- `prisma.ingestionSource.upsert` keyed by `key` (fresh source ids are
modelled deterministically from the key). -/
def upsertSourceByKey (st : CycleState) (key : String)
    (upd : IngestionSourceRow → IngestionSourceRow)
    (created : IngestionSourceRow) : CycleState :=
  match st.sources.find? fun s => s.key = key with
  | some _ =>
    { st with sources := updateFirst (fun s => s.key = key) upd st.sources }
  | none => { st with sources := st.sources ++ [created] }

/-- `ensureDefaultIngestionSources` from the source pipeline. -/
def ensureDefaultIngestionSources (st : CycleState) : CycleState :=
  let st1 := upsertSourceByKey st "claude-default"
    (fun s =>
      { s with
          rootPath := some DEFAULT_CLAUDE_ROOT,
          lookbackDays := DEFAULT_LOOKBACK_DAYS })
    { id := "src:claude-default", key := "claude-default",
      type_ := IngestionSourceType.CLAUDE, name := "Claude default",
      rootPath := some DEFAULT_CLAUDE_ROOT,
      lookbackDays := DEFAULT_LOOKBACK_DAYS, pollIntervalSec := 30,
      createdAt := st.now }
  upsertSourceByKey st1 "opencode-default"
    (fun s =>
      { s with
          rootPath := some DEFAULT_OPENCODE_HOME,
          dbPath := some (DEFAULT_OPENCODE_HOME ++ "/opencode.db"),
          lookbackDays := DEFAULT_LOOKBACK_DAYS })
    { id := "src:opencode-default", key := "opencode-default",
      type_ := IngestionSourceType.OPENCODE, name := "OpenCode default",
      rootPath := some DEFAULT_OPENCODE_HOME,
      dbPath := some (DEFAULT_OPENCODE_HOME ++ "/opencode.db"),
      lookbackDays := DEFAULT_LOOKBACK_DAYS, pollIntervalSec := 15,
      createdAt := st.now }

/-- The enabled sources in stable creation order
(`findMany(where isEnabled, orderBy createdAt asc)`). -/
def enabledSources (st : CycleState) : List IngestionSourceRow :=
  (st.sources.filter fun s => s.isEnabled).mergeSort
    fun a b => a.createdAt ≤ b.createdAt

/-- The effective scan lower bound of a source run (`since` in
`runClaudeSource` / `runOpenCodeSource`): the stored checkpoint when it is
past the lookback start, else the lookback start. -/
def effectiveSince (lastCheckpoint : Option Int) (now lookbackDays : Int) :
    Int :=
  let lookbackStart := now - lookbackDays * 86400000
  match lastCheckpoint with
  | some cp => if lookbackStart < cp then cp else lookbackStart
  | none => lookbackStart

/-- Abstraction of the file-scanning phase of an adapter (the filesystem
walk, JSON parsing and session reconstruction, which live outside the
store): given the source row and the effective scan lower bound it either
throws or returns reconstructed sessions plus the maximum observed source
timestamp. -/
def ScanFun : Type :=
  IngestionSourceRow → Int → Except String (List IngestSessionInput × Option Int)

/-- The shared body of `runClaudeSource` and `runOpenCodeSource` over an
abstract scan phase: read the checkpoint, compute the effective lower
bound, scan, re-sort and re-number each session's messages, persist.  The
`ensureSourceTool` / `ensureWorkspace` identities are modelled by their
stable slugs. -/
def runAdapterM (toolSlug importSource : String) (scan : ScanFun)
    (st : CycleState) (source : IngestionSourceRow) :
    CycleState × Except String SourceRunResult :=
  let lastCheckpoint := getCheckpoint st source.id "lastTimestamp"
  let since := effectiveSince lastCheckpoint st.now source.lookbackDays
  match scan source since with
  | Except.error e => (st, Except.error e)
  | Except.ok (sessions, maxTimestamp) =>
    let sorted := sessions.map fun s =>
      { s with
          messages := sortAndNumberMessages s.messages }
    let r := persistSessions st.sess toolSlug "workspace-default"
      importSource sorted maxTimestamp st.now
    ({ st with sess := r.1 }, Except.ok r.2)

/-- `runClaudeSource` from the source pipeline. -/
def runClaudeSourceM : ScanFun → CycleState → IngestionSourceRow →
    CycleState × Except String SourceRunResult :=
  runAdapterM "claude-code" "claude-watcher"

/-- `runOpenCodeSource` from the source pipeline. -/
def runOpenCodeSourceM : ScanFun → CycleState → IngestionSourceRow →
    CycleState × Except String SourceRunResult :=
  runAdapterM "opencode" "opencode-watcher"

/-- The scan outcome a source sees in a given state (the unsupported-type
check of `runIngestionCycle` throwing before any adapter is invoked). -/
def scanResultOf (scanClaude scanOpenCode : ScanFun) (st : CycleState)
    (source : IngestionSourceRow) :
    Except String (List IngestSessionInput × Option Int) :=
  match source.type_ with
  | IngestionSourceType.CLAUDE =>
    scanClaude source (effectiveSince (getCheckpoint st source.id "lastTimestamp")
      st.now source.lookbackDays)
  | IngestionSourceType.OPENCODE =>
    scanOpenCode source (effectiveSince (getCheckpoint st source.id "lastTimestamp")
      st.now source.lookbackDays)
  | IngestionSourceType.OTHER =>
    Except.error "Unsupported ingestion source type"

/-- The per-source body of `runIngestionCycle`: create a RUNNING run,
stamp the source, dispatch on the source type (unsupported types throw),
then record success (counts, status, optional checkpoint advance) or
failure (FAILED run, error row, error stamp on the source). -/
def processSource (scanClaude scanOpenCode : ScanFun) (mode : String)
    (st : CycleState) (source : IngestionSourceRow) : CycleState :=
  let run : IngestionRunRow :=
    { id := st.nextRunId, sourceId := source.id, mode := mode,
      status := IngestionRunStatus.RUNNING }
  let st1 :=
    { st with runs := st.runs ++ [run], nextRunId := st.nextRunId + 1 }
  let st2 := updateSource st1 source.id fun s =>
    { s with
        lastRunAt := some st.now,
        statusMessage := some ("Running " ++ mode ++ "...") }
  let dispatched : CycleState × Except String SourceRunResult :=
    match source.type_ with
    | IngestionSourceType.CLAUDE => runClaudeSourceM scanClaude st2 source
    | IngestionSourceType.OPENCODE => runOpenCodeSourceM scanOpenCode st2 source
    | IngestionSourceType.OTHER =>
      (st2, Except.error "Unsupported ingestion source type")
  match dispatched.2 with
  | Except.ok result =>
    let st4 := updateRun dispatched.1 run.id fun r =>
      { r with
          status := IngestionRunStatus.SUCCESS,
          finishedAt := some st.now,
          scannedSessions := result.scannedSessions,
          upsertedSessions := result.upsertedSessions,
          upsertedMessages := result.upsertedMessages,
          upsertedParts := result.upsertedParts, note := result.note }
    let st5 := updateSource st4 source.id fun s =>
      { s with
          lastSuccessAt := some st.now,
          statusMessage := some (result.note.getD "Success") }
    match result.maxTimestamp with
    | some ts => setCheckpoint st5 source.id "lastTimestamp" ts
    | none => st5
  | Except.error message =>
    let st4 := updateRun dispatched.1 run.id fun r =>
      { r with
          status := IngestionRunStatus.FAILED,
          finishedAt := some st.now, errorCount := 1, note := some message }
    let st5 :=
      { st4 with
          errors := st4.errors ++
            [{ sourceId := source.id, runId := run.id,
               code := "INGESTION_FAILURE", message := message }] }
    updateSource st5 source.id fun s =>
      { s with
          lastErrorAt := some st.now, statusMessage := some message }

/-- `runIngestionCycle` from the source pipeline: ensure the default source
configurations, then process every enabled source in stable creation order,
one after the other. -/
def runIngestionCycle (scanClaude scanOpenCode : ScanFun) (st : CycleState)
    (mode : String) : CycleState :=
  let st0 := ensureDefaultIngestionSources st
  (enabledSources st0).foldl (processSource scanClaude scanOpenCode mode) st0

theorem mem_updateFirst_of_neg {α : Type} {p : α → Bool} (f : α → α)
    {l : List α} {x : α} (hx : x ∈ l) (hpx : p x = false) :
    x ∈ updateFirst p f l := by
  induction l with
  | nil => simp at hx
  | cons a rest ih =>
    rw [updateFirst]
    rcases List.mem_cons.mp hx with hx | hx
    · subst hx
      rw [if_neg (by simp [hpx])]
      exact List.mem_cons_self x _
    · by_cases hpa : p a
      · rw [if_pos hpa]
        exact List.mem_cons_of_mem _ hx
      · rw [if_neg hpa]
        exact List.mem_cons_of_mem _ (ih hx)

theorem updateFirst_append_last {α : Type} (p : α → Bool) (f : α → α)
    (l : List α) (a : α) (hl : ∀ x ∈ l, p x = false) (ha : p a = true) :
    updateFirst p f (l ++ [a]) = l ++ [f a] := by
  induction l with
  | nil => simp [updateFirst, ha]
  | cons b rest ih =>
    rw [List.cons_append, updateFirst, if_neg (by simp [hl b (by simp)]),
      List.cons_append]
    rw [ih fun x hx => hl x (by simp [hx])]

theorem updateFirst_find?_same {α : Type} (p : α → Bool) (f : α → α)
    (hp : ∀ a, p (f a) = p a) (l : List α) :
    (updateFirst p f l).find? p = (l.find? p).map f := by
  induction l with
  | nil => rfl
  | cons a rest ih =>
    rw [updateFirst]
    by_cases hpa : p a
    · rw [if_pos hpa, List.find?_cons, List.find?_cons, hp a, hpa]
      rfl
    · rw [if_neg hpa, List.find?_cons, List.find?_cons,
        Bool.eq_false_iff.mpr hpa]
      exact ih

theorem updateFirst_find?_other {α : Type} (p q : α → Bool) (f : α → α)
    (hdisj : ∀ a, q a = true → p a = false) (hq : ∀ a, q (f a) = q a)
    (l : List α) : (updateFirst p f l).find? q = l.find? q := by
  induction l with
  | nil => rfl
  | cons a rest ih =>
    rw [updateFirst]
    by_cases hpa : p a
    · rw [if_pos hpa, List.find?_cons, List.find?_cons, hq a]
      cases hqa : q a
      · rfl
      · exact absurd (hdisj a hqa) (by simp [hpa])
    · rw [if_neg hpa, List.find?_cons, List.find?_cons]
      cases hqa : q a
      · exact ih
      · rfl

theorem getCheckpoint_set_same (st : CycleState) (id k : String) (v : Int) :
    getCheckpoint (setCheckpoint st id k v) id k = some v := by
  rw [setCheckpoint]
  cases hf : st.checkpoints.find? fun c => c.sourceId = id ∧ c.cursorKey = k with
  | some c =>
    rw [getCheckpoint]
    have := updateFirst_find?_same
      (fun c : CheckpointRow => c.sourceId = id ∧ c.cursorKey = k)
      (fun c => { c with cursorValue := v }) (fun a => rfl) st.checkpoints
    simp only []
    rw [this, hf]
    rfl
  | none =>
    rw [getCheckpoint]
    simp only []
    rw [List.find?_append, hf]
    simp

theorem getCheckpoint_set_other (st : CycleState) (id k id2 k2 : String)
    (v : Int) (h : ¬(id2 = id ∧ k2 = k)) :
    getCheckpoint (setCheckpoint st id k v) id2 k2 =
      getCheckpoint st id2 k2 := by
  rw [setCheckpoint]
  cases hf : st.checkpoints.find? fun c => c.sourceId = id ∧ c.cursorKey = k with
  | some c =>
    rw [getCheckpoint, getCheckpoint]
    have := updateFirst_find?_other
      (fun c : CheckpointRow => c.sourceId = id ∧ c.cursorKey = k)
      (fun c : CheckpointRow => c.sourceId = id2 ∧ c.cursorKey = k2)
      (fun c => { c with cursorValue := v })
      (fun a ha => by
        simp only [decide_eq_true_eq] at ha ⊢
        rw [Bool.eq_false_iff]
        simp only [ne_eq, decide_eq_true_eq]
        intro hcontra
        exact h ⟨ha.1 ▸ hcontra.1.symm ▸ rfl, ha.2 ▸ hcontra.2.symm ▸ rfl⟩)
      (fun a => rfl) st.checkpoints
    simp only []
    rw [this]
  | none =>
    rw [getCheckpoint, getCheckpoint]
    simp only []
    rw [List.find?_append]
    have : List.find? (fun c => c.sourceId = id2 ∧ c.cursorKey = k2)
        [(⟨id, k, v⟩ : CheckpointRow)] = none := by
      rw [List.find?_cons]
      have : (decide ((⟨id, k, v⟩ : CheckpointRow).sourceId = id2 ∧
          (⟨id, k, v⟩ : CheckpointRow).cursorKey = k2)) = false := by
        simp only [decide_eq_false_iff_not]
        intro hcontra
        exact h ⟨hcontra.1.symm, hcontra.2.symm⟩
      rw [this]
      rfl
    rw [this, Option.or_none]

theorem getSource_update_other (st : CycleState) (id id2 : String)
    (f : IngestionSourceRow → IngestionSourceRow)
    (hf : ∀ s, (f s).id = s.id) (h : id2 ≠ id) :
    getSource (updateSource st id f) id2 = getSource st id2 := by
  rw [updateSource, getSource, getSource]
  exact updateFirst_find?_other _ _ f
    (fun a ha => by
      simp only [decide_eq_true_eq] at ha
      simp [ha, h])
    (fun a => by simp [hf a]) st.sources

theorem getSource_update_same (st : CycleState) (id : String)
    (f : IngestionSourceRow → IngestionSourceRow)
    (hf : ∀ s, (f s).id = s.id) :
    getSource (updateSource st id f) id = (getSource st id).map f := by
  rw [updateSource, getSource, getSource]
  exact updateFirst_find?_same _ f (fun a => by simp [hf a]) st.sources

theorem scanResultOf_congr (scanC scanO : ScanFun) {st1 st2 : CycleState}
    (source : IngestionSourceRow)
    (hcp : getCheckpoint st1 source.id "lastTimestamp" =
      getCheckpoint st2 source.id "lastTimestamp")
    (hnow : st1.now = st2.now) :
    scanResultOf scanC scanO st1 source = scanResultOf scanC scanO st2 source := by
  cases htype : source.type_ <;> simp [scanResultOf, htype, hcp, hnow]

theorem persistSessions_maxTimestamp (store : SessStore)
    (t w imp : String) (sessions : List IngestSessionInput)
    (maxTs : Option Int) (now : Int) :
    (persistSessions store t w imp sessions maxTs now).2.maxTimestamp =
      maxTs := rfl

/-- Explicit form of a per-source iteration whose scan throws: FAILED run,
error row, error-stamped source, untouched checkpoints and session store. -/
theorem processSource_eq_error (scanC scanO : ScanFun) (mode : String)
    (st : CycleState) (source : IngestionSourceRow) (msg : String)
    (hout : scanResultOf scanC scanO st source = Except.error msg) :
    processSource scanC scanO mode st source =
      { sources := updateFirst (fun s => s.id = source.id)
          (fun s =>
            { s with
                lastErrorAt := some st.now, statusMessage := some msg })
          (updateFirst (fun s => s.id = source.id)
            (fun s =>
              { s with
                  lastRunAt := some st.now,
                  statusMessage := some ("Running " ++ mode ++ "...") })
            st.sources),
        runs := updateFirst (fun r => r.id = st.nextRunId)
          (fun r =>
            { r with
                status := IngestionRunStatus.FAILED,
                finishedAt := some st.now, errorCount := 1,
                note := some msg })
          (st.runs ++
            [{ id := st.nextRunId, sourceId := source.id, mode := mode,
               status := IngestionRunStatus.RUNNING }]),
        errors := st.errors ++
          [{ sourceId := source.id, runId := st.nextRunId,
             code := "INGESTION_FAILURE", message := msg }],
        checkpoints := st.checkpoints,
        sess := st.sess,
        nextRunId := st.nextRunId + 1,
        now := st.now } := by
  cases htype : source.type_ with
  | CLAUDE =>
    simp only [scanResultOf, htype, getCheckpoint] at hout
    simp only [processSource, htype, runClaudeSourceM, runAdapterM,
      updateSource, updateRun, getCheckpoint, hout]
  | OPENCODE =>
    simp only [scanResultOf, htype, getCheckpoint] at hout
    simp only [processSource, htype, runOpenCodeSourceM, runAdapterM,
      updateSource, updateRun, getCheckpoint, hout]
  | OTHER =>
    simp only [scanResultOf, htype, Except.error.injEq] at hout
    subst hout
    simp only [processSource, htype, updateSource, updateRun]

/-- Explicit form of a per-source iteration whose scan succeeds: SUCCESS
run, success-stamped source, checkpoint advanced exactly when the adapter
returned a maximum observed timestamp. -/
theorem processSource_eq_ok (scanC scanO : ScanFun) (mode : String)
    (st : CycleState) (source : IngestionSourceRow)
    (sessions : List IngestSessionInput) (maxTs : Option Int)
    (hout : scanResultOf scanC scanO st source = Except.ok (sessions, maxTs)) :
    ∃ (sess2 : SessStore) (result : SourceRunResult),
      result.maxTimestamp = maxTs ∧
      processSource scanC scanO mode st source =
        (let B : CycleState :=
          { sources := updateFirst (fun s => s.id = source.id)
              (fun s =>
                { s with
                    lastSuccessAt := some st.now,
                    statusMessage := some (result.note.getD "Success") })
              (updateFirst (fun s => s.id = source.id)
                (fun s =>
                  { s with
                      lastRunAt := some st.now,
                      statusMessage := some ("Running " ++ mode ++ "...") })
                st.sources),
            runs := updateFirst (fun r => r.id = st.nextRunId)
              (fun r =>
                { r with
                    status := IngestionRunStatus.SUCCESS,
                    finishedAt := some st.now,
                    scannedSessions := result.scannedSessions,
                    upsertedSessions := result.upsertedSessions,
                    upsertedMessages := result.upsertedMessages,
                    upsertedParts := result.upsertedParts,
                    note := result.note })
              (st.runs ++
                [{ id := st.nextRunId, sourceId := source.id, mode := mode,
                   status := IngestionRunStatus.RUNNING }]),
            errors := st.errors,
            checkpoints := st.checkpoints,
            sess := sess2,
            nextRunId := st.nextRunId + 1,
            now := st.now }
         match maxTs with
         | some ts => setCheckpoint B source.id "lastTimestamp" ts
         | none => B) := by
  cases htype : source.type_ with
  | CLAUDE =>
    refine ⟨(persistSessions st.sess "claude-code" "workspace-default"
        "claude-watcher" (sessions.map fun s =>
          { s with
              messages := sortAndNumberMessages s.messages }) maxTs st.now).1,
      (persistSessions st.sess "claude-code" "workspace-default"
        "claude-watcher" (sessions.map fun s =>
          { s with
              messages := sortAndNumberMessages s.messages }) maxTs st.now).2,
      rfl, ?_⟩
    simp only [scanResultOf, htype, getCheckpoint] at hout
    simp only [processSource, htype, runClaudeSourceM, runAdapterM,
      updateSource, updateRun, getCheckpoint, hout, persistSessions_maxTimestamp]
    cases maxTs <;> rfl
  | OPENCODE =>
    refine ⟨(persistSessions st.sess "opencode" "workspace-default"
        "opencode-watcher" (sessions.map fun s =>
          { s with
              messages := sortAndNumberMessages s.messages }) maxTs st.now).1,
      (persistSessions st.sess "opencode" "workspace-default"
        "opencode-watcher" (sessions.map fun s =>
          { s with
              messages := sortAndNumberMessages s.messages }) maxTs st.now).2,
      rfl, ?_⟩
    simp only [scanResultOf, htype, getCheckpoint] at hout
    simp only [processSource, htype, runOpenCodeSourceM, runAdapterM,
      updateSource, updateRun, getCheckpoint, hout, persistSessions_maxTimestamp]
    cases maxTs <;> rfl
  | OTHER =>
    rw [scanResultOf, htype] at hout
    exact absurd hout (by simp)

theorem updateFirst_length {α : Type} (p : α → Bool) (f : α → α)
    (l : List α) : (updateFirst p f l).length = l.length := by
  induction l with
  | nil => rfl
  | cons a rest ih =>
    rw [updateFirst]
    by_cases hpa : p a
    · simp [hpa]
    · simp [hpa, ih]

theorem setCheckpoint_frame (st : CycleState) (id k : String) (v : Int) :
    (setCheckpoint st id k v).runs = st.runs ∧
    (setCheckpoint st id k v).errors = st.errors ∧
    (setCheckpoint st id k v).sources = st.sources ∧
    (setCheckpoint st id k v).nextRunId = st.nextRunId ∧
    (setCheckpoint st id k v).now = st.now := by
  rw [setCheckpoint]
  cases st.checkpoints.find? fun c => c.sourceId = id ∧ c.cursorKey = k with
  | some c => exact ⟨rfl, rfl, rfl, rfl, rfl⟩
  | none => exact ⟨rfl, rfl, rfl, rfl, rfl⟩

theorem getSource_congr {s1 s2 : CycleState} (h : s1.sources = s2.sources)
    (id : String) : getSource s1 id = getSource s2 id := by
  rw [getSource, getSource, h]

theorem find?_double_update {α : Type} (p : α → Bool) (f g : α → α)
    (hf : ∀ a, p (f a) = p a) (hg : ∀ a, p (g a) = p a) (l : List α) :
    (updateFirst p g (updateFirst p f l)).find? p =
      (l.find? p).map fun a => g (f a) := by
  rw [updateFirst_find?_same p g hg, updateFirst_find?_same p f hf,
    Option.map_map]
  rfl

/-- Full behaviour of one per-source iteration of the cycle, as needed for
the orchestrator claims: the clock is untouched, exactly one run row is
appended, other sources' rows and checkpoints are untouched, and the
success / failure bookkeeping happens as claimed. -/
theorem processSource_spec (scanC scanO : ScanFun) (mode : String)
    (st : CycleState) (source : IngestionSourceRow)
    (hfresh : ∀ r ∈ st.runs, r.id < st.nextRunId)
    (hsrc : (getSource st source.id).isSome) :
    (processSource scanC scanO mode st source).now = st.now ∧
    (processSource scanC scanO mode st source).runs.length =
      st.runs.length + 1 ∧
    st.nextRunId < (processSource scanC scanO mode st source).nextRunId ∧
    (∀ r ∈ st.runs, r ∈ (processSource scanC scanO mode st source).runs) ∧
    (∀ r ∈ (processSource scanC scanO mode st source).runs,
      r.id < (processSource scanC scanO mode st source).nextRunId) ∧
    (∀ e ∈ st.errors, e ∈ (processSource scanC scanO mode st source).errors) ∧
    (∀ id2, id2 ≠ source.id →
      getSource (processSource scanC scanO mode st source) id2 =
        getSource st id2) ∧
    (∀ id2 k2, id2 ≠ source.id →
      getCheckpoint (processSource scanC scanO mode st source) id2 k2 =
        getCheckpoint st id2 k2) ∧
    (getSource (processSource scanC scanO mode st source) source.id).isSome ∧
    (∀ msg, scanResultOf scanC scanO st source = Except.error msg →
      (∃ run ∈ (processSource scanC scanO mode st source).runs,
        run.sourceId = source.id ∧
        run.status = IngestionRunStatus.FAILED ∧ run.note = some msg ∧
        run.finishedAt = some st.now ∧
        ∃ err ∈ (processSource scanC scanO mode st source).errors,
          err.runId = run.id ∧ err.sourceId = source.id ∧
          err.code = "INGESTION_FAILURE" ∧ err.message = msg) ∧
      (∃ srow, getSource (processSource scanC scanO mode st source)
          source.id = some srow ∧
        srow.lastErrorAt = some st.now ∧ srow.statusMessage = some msg) ∧
      (∀ k2, getCheckpoint (processSource scanC scanO mode st source)
          source.id k2 = getCheckpoint st source.id k2)) ∧
    (∀ sessions ts,
      scanResultOf scanC scanO st source = Except.ok (sessions, some ts) →
      getCheckpoint (processSource scanC scanO mode st source) source.id
          "lastTimestamp" = some ts ∧
      (∀ k2, k2 ≠ "lastTimestamp" →
        getCheckpoint (processSource scanC scanO mode st source) source.id
            k2 = getCheckpoint st source.id k2) ∧
      ∃ run ∈ (processSource scanC scanO mode st source).runs,
        run.sourceId = source.id ∧
        run.status = IngestionRunStatus.SUCCESS) ∧
    (∀ sessions,
      scanResultOf scanC scanO st source = Except.ok (sessions, none) →
      (∀ k2, getCheckpoint (processSource scanC scanO mode st source)
          source.id k2 = getCheckpoint st source.id k2) ∧
      ∃ run ∈ (processSource scanC scanO mode st source).runs,
        run.sourceId = source.id ∧
        run.status = IngestionRunStatus.SUCCESS) := by
  have hnotp : ∀ r ∈ st.runs,
      (decide (r.id = st.nextRunId)) = false := by
    intro r hr
    have := hfresh r hr
    simp only [decide_eq_false_iff_not]
    omega
  cases hout : scanResultOf scanC scanO st source with
  | error msg =>
    rw [processSource_eq_error scanC scanO mode st source msg hout]
    have hruns : updateFirst (fun r => r.id = st.nextRunId)
        (fun r =>
          { r with
              status := IngestionRunStatus.FAILED,
              finishedAt := some st.now, errorCount := 1,
              note := some msg })
        (st.runs ++
          [{ id := st.nextRunId, sourceId := source.id, mode := mode,
             status := IngestionRunStatus.RUNNING }]) =
        st.runs ++
          [{ id := st.nextRunId, sourceId := source.id, mode := mode,
             status := IngestionRunStatus.FAILED,
             finishedAt := some st.now, errorCount := 1,
             note := some msg }] := by
      rw [updateFirst_append_last _ _ _ _ hnotp (by simp)]
    refine ⟨rfl, ?_, Nat.lt_succ_self _, ?_, ?_, ?_, ?_, ?_, ?_, ?_, ?_, ?_⟩
    · simp only [hruns]
      simp
    · intro r hr
      simp only [hruns]
      exact List.mem_append_left _ hr
    · intro r hr
      simp only [hruns] at hr
      rcases List.mem_append.mp hr with hr | hr
      · have := hfresh r hr
        simp only []
        omega
      · simp only [List.mem_singleton] at hr
        subst hr
        simp only []
        omega
    · intro e he
      exact List.mem_append_left _ he
    · intro id2 hne
      refine (updateFirst_find?_other
          (fun s : IngestionSourceRow => s.id = source.id) _
          (fun s : IngestionSourceRow =>
            { s with
                lastErrorAt := some st.now, statusMessage := some msg })
          ?_ ?_ _).trans
        (updateFirst_find?_other
          (fun s : IngestionSourceRow => s.id = source.id) _
          (fun s : IngestionSourceRow =>
            { s with
                lastRunAt := some st.now,
                statusMessage := some ("Running " ++ mode ++ "...") })
          ?_ ?_ _)
      · intro a ha
        simp only [decide_eq_true_eq] at ha
        simp [ha, hne]
      · exact fun a => rfl
      · intro a ha
        simp only [decide_eq_true_eq] at ha
        simp [ha, hne]
      · exact fun a => rfl
    · intro id2 k2 hne
      rfl
    · obtain ⟨row, hrow⟩ := Option.isSome_iff_exists.mp hsrc
      rw [getSource] at hrow
      have hkey := find?_double_update
        (fun s : IngestionSourceRow => s.id = source.id)
        (fun s =>
          { s with
              lastRunAt := some st.now,
              statusMessage := some ("Running " ++ mode ++ "...") })
        (fun s =>
          { s with
              lastErrorAt := some st.now, statusMessage := some msg })
        (fun a => rfl) (fun a => rfl) st.sources
      rw [hrow] at hkey
      exact Option.isSome_iff_exists.mpr ⟨_, hkey⟩
    · intro msg2 hmsg
      obtain rfl : msg = msg2 := by
        injection hmsg
      refine ⟨?_, ?_, ?_⟩
      · refine ⟨{ id := st.nextRunId, sourceId := source.id, mode := mode,
                  status := IngestionRunStatus.FAILED,
                  finishedAt := some st.now,
                  errorCount := 1, note := some msg },
          ?_, rfl, rfl, rfl, rfl, ?_⟩
        · simp only [hruns]
          exact List.mem_append_right _ (by simp)
        · refine ⟨{ sourceId := source.id, runId := st.nextRunId,
                    code := "INGESTION_FAILURE", message := msg },
            List.mem_append_right _ (by simp), rfl, rfl, rfl, rfl⟩
      · obtain ⟨row, hrow⟩ := Option.isSome_iff_exists.mp hsrc
        rw [getSource] at hrow
        have hkey := find?_double_update
          (fun s : IngestionSourceRow => s.id = source.id)
          (fun s =>
            { s with
                lastRunAt := some st.now,
                statusMessage := some ("Running " ++ mode ++ "...") })
          (fun s =>
            { s with
                lastErrorAt := some st.now, statusMessage := some msg })
          (fun a => rfl) (fun a => rfl) st.sources
        rw [hrow] at hkey
        exact ⟨_, hkey, rfl, rfl⟩
      · intro k2
        rfl
    · intro sessions ts hok
      exact absurd hok (by simp)
    · intro sessions hok
      exact absurd hok (by simp)
  | ok pair =>
    obtain ⟨sessions, maxTs⟩ := pair
    obtain ⟨sess2, result, hmax, heq⟩ :=
      processSource_eq_ok scanC scanO mode st source sessions maxTs hout
    rw [heq]
    have hruns : updateFirst (fun r => r.id = st.nextRunId)
        (fun r =>
          { r with
              status := IngestionRunStatus.SUCCESS,
              finishedAt := some st.now,
              scannedSessions := result.scannedSessions,
              upsertedSessions := result.upsertedSessions,
              upsertedMessages := result.upsertedMessages,
              upsertedParts := result.upsertedParts, note := result.note })
        (st.runs ++
          [{ id := st.nextRunId, sourceId := source.id, mode := mode,
             status := IngestionRunStatus.RUNNING }]) =
        st.runs ++
          [{ id := st.nextRunId, sourceId := source.id, mode := mode,
             status := IngestionRunStatus.SUCCESS,
             finishedAt := some st.now,
             scannedSessions := result.scannedSessions,
             upsertedSessions := result.upsertedSessions,
             upsertedMessages := result.upsertedMessages,
             upsertedParts := result.upsertedParts,
             errorCount := 0, note := result.note }] := by
      rw [updateFirst_append_last _ _ _ _ hnotp (by simp)]
    cases maxTs with
    | none =>
      refine ⟨rfl, ?_, Nat.lt_succ_self _, ?_, ?_, ?_, ?_, ?_, ?_, ?_, ?_, ?_⟩
      · simp only [hruns]
        simp
      · intro r hr
        simp only [hruns]
        exact List.mem_append_left _ hr
      · intro r hr
        simp only [hruns] at hr
        rcases List.mem_append.mp hr with hr | hr
        · have := hfresh r hr
          simp only []
          omega
        · simp only [List.mem_singleton] at hr
          subst hr
          simp only []
          omega
      · intro e he
        exact he
      · intro id2 hne
        refine (updateFirst_find?_other
            (fun s : IngestionSourceRow => s.id = source.id) _
            (fun s : IngestionSourceRow =>
              { s with
                  lastSuccessAt := some st.now,
                  statusMessage := some (result.note.getD "Success") })
            ?_ ?_ _).trans
          (updateFirst_find?_other
            (fun s : IngestionSourceRow => s.id = source.id) _
            (fun s : IngestionSourceRow =>
              { s with
                  lastRunAt := some st.now,
                  statusMessage := some ("Running " ++ mode ++ "...") })
            ?_ ?_ _)
        · intro a ha
          simp only [decide_eq_true_eq] at ha
          simp [ha, hne]
        · exact fun a => rfl
        · intro a ha
          simp only [decide_eq_true_eq] at ha
          simp [ha, hne]
        · exact fun a => rfl
      · intro id2 k2 hne
        rfl
      · obtain ⟨row, hrow⟩ := Option.isSome_iff_exists.mp hsrc
        rw [getSource] at hrow
        have hkey := find?_double_update
          (fun s : IngestionSourceRow => s.id = source.id)
          (fun s =>
            { s with
                lastRunAt := some st.now,
                statusMessage := some ("Running " ++ mode ++ "...") })
          (fun s =>
            { s with
                lastSuccessAt := some st.now,
                statusMessage := some (result.note.getD "Success") })
          (fun a => rfl) (fun a => rfl) st.sources
        rw [hrow] at hkey
        exact Option.isSome_iff_exists.mpr ⟨_, hkey⟩
      · intro msg hmsg
        exact absurd hmsg (by simp)
      · intro sessions2 ts hok
        exact absurd hok (by simp)
      · intro sessions2 hok
        refine ⟨fun k2 => rfl, ?_⟩
        refine ⟨{ id := st.nextRunId, sourceId := source.id, mode := mode,
                  status := IngestionRunStatus.SUCCESS,
                  finishedAt := some st.now,
                  scannedSessions := result.scannedSessions,
                  upsertedSessions := result.upsertedSessions,
                  upsertedMessages := result.upsertedMessages,
                  upsertedParts := result.upsertedParts, errorCount := 0,
                  note := result.note }, ?_, rfl, rfl⟩
        simp only [hruns]
        exact List.mem_append_right _ (by simp)
    | some ts =>
      simp only []
      refine ⟨?_, ?_, ?_, ?_, ?_, ?_, ?_, ?_, ?_, ?_, ?_, ?_⟩
      · exact (setCheckpoint_frame _ source.id "lastTimestamp" ts).2.2.2.2
      · rw [(setCheckpoint_frame _ source.id "lastTimestamp" ts).1]
        simp only [hruns]
        simp
      · rw [(setCheckpoint_frame _ source.id "lastTimestamp" ts).2.2.2.1]
        exact Nat.lt_succ_self _
      · intro r hr
        rw [(setCheckpoint_frame _ source.id "lastTimestamp" ts).1]
        simp only [hruns]
        exact List.mem_append_left _ hr
      · intro r hr
        rw [(setCheckpoint_frame _ source.id "lastTimestamp" ts).1] at hr
        rw [(setCheckpoint_frame _ source.id "lastTimestamp" ts).2.2.2.1]
        simp only [hruns] at hr
        rcases List.mem_append.mp hr with hr | hr
        · have := hfresh r hr
          simp only []
          omega
        · simp only [List.mem_singleton] at hr
          subst hr
          simp only []
          omega
      · intro e he
        rw [(setCheckpoint_frame _ source.id "lastTimestamp" ts).2.1]
        exact he
      · intro id2 hne
        refine (getSource_congr
          (setCheckpoint_frame _ source.id "lastTimestamp" ts).2.2.1
          id2).trans ?_
        refine (updateFirst_find?_other
            (fun s : IngestionSourceRow => s.id = source.id) _
            (fun s : IngestionSourceRow =>
              { s with
                  lastSuccessAt := some st.now,
                  statusMessage := some (result.note.getD "Success") })
            ?_ ?_ _).trans
          (updateFirst_find?_other
            (fun s : IngestionSourceRow => s.id = source.id) _
            (fun s : IngestionSourceRow =>
              { s with
                  lastRunAt := some st.now,
                  statusMessage := some ("Running " ++ mode ++ "...") })
            ?_ ?_ _)
        · intro a ha
          simp only [decide_eq_true_eq] at ha
          simp [ha, hne]
        · exact fun a => rfl
        · intro a ha
          simp only [decide_eq_true_eq] at ha
          simp [ha, hne]
        · exact fun a => rfl
      · intro id2 k2 hne
        exact (getCheckpoint_set_other _ source.id "lastTimestamp" id2 k2 ts
          fun hc => hne hc.1).trans rfl
      · obtain ⟨row, hrow⟩ := Option.isSome_iff_exists.mp hsrc
        rw [getSource] at hrow
        have hkey := find?_double_update
          (fun s : IngestionSourceRow => s.id = source.id)
          (fun s =>
            { s with
                lastRunAt := some st.now,
                statusMessage := some ("Running " ++ mode ++ "...") })
          (fun s =>
            { s with
                lastSuccessAt := some st.now,
                statusMessage := some (result.note.getD "Success") })
          (fun a => rfl) (fun a => rfl) st.sources
        rw [hrow] at hkey
        exact Option.isSome_iff_exists.mpr
          ⟨_, (getSource_congr
            (setCheckpoint_frame _ source.id "lastTimestamp" ts).2.2.1
            source.id).trans hkey⟩
      · intro msg hmsg
        exact absurd hmsg (by simp)
      · intro sessions2 ts2 hok
        simp only [Except.ok.injEq, Prod.mk.injEq, Option.some.injEq] at hok
        obtain ⟨h1, h2⟩ := hok
        subst h2
        refine ⟨getCheckpoint_set_same _ source.id "lastTimestamp" ts,
          fun k2 hk2 =>
            (getCheckpoint_set_other _ source.id "lastTimestamp" source.id
              k2 ts fun hc => hk2 hc.2).trans rfl, ?_⟩
        refine ⟨{ id := st.nextRunId, sourceId := source.id, mode := mode,
                  status := IngestionRunStatus.SUCCESS,
                  finishedAt := some st.now,
                  scannedSessions := result.scannedSessions,
                  upsertedSessions := result.upsertedSessions,
                  upsertedMessages := result.upsertedMessages,
                  upsertedParts := result.upsertedParts, errorCount := 0,
                  note := result.note }, ?_, rfl, rfl⟩
        rw [(setCheckpoint_frame _ source.id "lastTimestamp" ts).1]
        simp only [hruns]
        exact List.mem_append_right _ (by simp)
      · intro sessions2 hok
        exact absurd hok (by simp)

/-- Iterating the per-source body over a whole list of sources: the clock is
preserved, every source contributes exactly one run row, existing rows
survive, and sources outside the list are untouched. -/
theorem foldl_processSource_spec (scanC scanO : ScanFun) (mode : String) :
    ∀ (srcs : List IngestionSourceRow) (st : CycleState),
      (∀ r ∈ st.runs, r.id < st.nextRunId) →
      (∀ s ∈ srcs, (getSource st s.id).isSome) →
      (srcs.foldl (processSource scanC scanO mode) st).now = st.now ∧
      (srcs.foldl (processSource scanC scanO mode) st).runs.length =
        st.runs.length + srcs.length ∧
      st.nextRunId ≤
        (srcs.foldl (processSource scanC scanO mode) st).nextRunId ∧
      (∀ r ∈ st.runs,
        r ∈ (srcs.foldl (processSource scanC scanO mode) st).runs) ∧
      (∀ r ∈ (srcs.foldl (processSource scanC scanO mode) st).runs,
        r.id < (srcs.foldl (processSource scanC scanO mode) st).nextRunId) ∧
      (∀ e ∈ st.errors,
        e ∈ (srcs.foldl (processSource scanC scanO mode) st).errors) ∧
      (∀ id2, (∀ s ∈ srcs, id2 ≠ s.id) →
        getSource (srcs.foldl (processSource scanC scanO mode) st) id2 =
          getSource st id2) ∧
      (∀ id2 k2, (∀ s ∈ srcs, id2 ≠ s.id) →
        getCheckpoint (srcs.foldl (processSource scanC scanO mode) st) id2
            k2 = getCheckpoint st id2 k2) ∧
      (∀ s ∈ srcs,
        ∃ run ∈ (srcs.foldl (processSource scanC scanO mode) st).runs,
          run.sourceId = s.id) := by
  intro srcs
  induction srcs with
  | nil =>
    intro st hfresh hpres
    exact ⟨rfl, by simp, Nat.le_refl _, fun r hr => hr, hfresh,
      fun e he => he, fun id2 _ => rfl, fun id2 k2 _ => rfl, by simp⟩
  | cons s rest ih =>
    intro st hfresh hpres
    obtain ⟨h1, h2, h3, h4, h5, h6, h7, h8, h9, h10, h11, h12⟩ :=
      processSource_spec scanC scanO mode st s hfresh
        (hpres s (List.mem_cons_self s rest))
    have hpres1 : ∀ t ∈ rest,
        (getSource (processSource scanC scanO mode st s) t.id).isSome := by
      intro t ht
      by_cases hts : t.id = s.id
      · rw [hts]
        exact h9
      · rw [h7 t.id hts]
        exact hpres t (List.mem_cons_of_mem s ht)
    obtain ⟨g1, g2, g3, g4, g5, g6, g7, g8, g9⟩ :=
      ih (processSource scanC scanO mode st s) h5 hpres1
    rw [List.foldl_cons]
    refine ⟨g1.trans h1, ?_, ?_, ?_, g5, ?_, ?_, ?_, ?_⟩
    · rw [g2, h2]
      simp only [List.length_cons]
      omega
    · exact Nat.le_trans (Nat.le_of_lt h3) g3
    · exact fun r hr => g4 r (h4 r hr)
    · exact fun e he => g6 e (h6 e he)
    · intro id2 hid2
      rw [g7 id2 fun t ht => hid2 t (List.mem_cons_of_mem s ht)]
      exact h7 id2 (hid2 s (List.mem_cons_self s rest))
    · intro id2 k2 hid2
      rw [g8 id2 k2 fun t ht => hid2 t (List.mem_cons_of_mem s ht)]
      exact h8 id2 k2 (hid2 s (List.mem_cons_self s rest))
    · intro t ht
      rcases List.mem_cons.mp ht with rfl | ht
      · cases hout : scanResultOf scanC scanO st t with
        | error msg =>
          obtain ⟨⟨run, hrmem, hrsrc, -⟩, -, -⟩ := h10 msg hout
          exact ⟨run, g4 run hrmem, hrsrc⟩
        | ok pair =>
          obtain ⟨sessions, maxTs⟩ := pair
          cases maxTs with
          | some ts =>
            obtain ⟨-, -, run, hrmem, hrsrc, -⟩ := h11 sessions ts hout
            exact ⟨run, g4 run hrmem, hrsrc⟩
          | none =>
            obtain ⟨-, run, hrmem, hrsrc, -⟩ := h12 sessions hout
            exact ⟨run, g4 run hrmem, hrsrc⟩
      · obtain ⟨run, hrmem, hrsrc⟩ := g9 t ht
        exact ⟨run, hrmem, hrsrc⟩

theorem upsertSourceByKey_frame (st : CycleState) (key : String)
    (upd : IngestionSourceRow → IngestionSourceRow)
    (created : IngestionSourceRow) :
    (upsertSourceByKey st key upd created).runs = st.runs ∧
    (upsertSourceByKey st key upd created).errors = st.errors ∧
    (upsertSourceByKey st key upd created).checkpoints = st.checkpoints ∧
    (upsertSourceByKey st key upd created).nextRunId = st.nextRunId ∧
    (upsertSourceByKey st key upd created).now = st.now := by
  rw [upsertSourceByKey]
  cases st.sources.find? fun s => s.key = key with
  | some c => exact ⟨rfl, rfl, rfl, rfl, rfl⟩
  | none => exact ⟨rfl, rfl, rfl, rfl, rfl⟩

theorem ensureDefault_frame (st : CycleState) :
    (ensureDefaultIngestionSources st).runs = st.runs ∧
    (ensureDefaultIngestionSources st).errors = st.errors ∧
    (ensureDefaultIngestionSources st).checkpoints = st.checkpoints ∧
    (ensureDefaultIngestionSources st).nextRunId = st.nextRunId ∧
    (ensureDefaultIngestionSources st).now = st.now := by
  simp only [ensureDefaultIngestionSources]
  refine ⟨?_, ?_, ?_, ?_, ?_⟩
  · exact ((upsertSourceByKey_frame _ _ _ _).1).trans
      (upsertSourceByKey_frame _ _ _ _).1
  · exact ((upsertSourceByKey_frame _ _ _ _).2.1).trans
      (upsertSourceByKey_frame _ _ _ _).2.1
  · exact ((upsertSourceByKey_frame _ _ _ _).2.2.1).trans
      (upsertSourceByKey_frame _ _ _ _).2.2.1
  · exact ((upsertSourceByKey_frame _ _ _ _).2.2.2.1).trans
      (upsertSourceByKey_frame _ _ _ _).2.2.2.1
  · exact ((upsertSourceByKey_frame _ _ _ _).2.2.2.2).trans
      (upsertSourceByKey_frame _ _ _ _).2.2.2.2

theorem getCheckpoint_congr {s1 s2 : CycleState}
    (h : s1.checkpoints = s2.checkpoints) (id k : String) :
    getCheckpoint s1 id k = getCheckpoint s2 id k := by
  rw [getCheckpoint, getCheckpoint, h]

theorem enabledSources_present (st : CycleState) :
    ∀ t ∈ enabledSources st, (getSource st t.id).isSome := by
  intro t ht
  rw [enabledSources] at ht
  have hmem : t ∈ st.sources := by
    have hf := (List.mergeSort_perm
      (st.sources.filter fun s => s.isEnabled)
      fun a b => a.createdAt ≤ b.createdAt).mem_iff.mp ht
    exact List.mem_of_mem_filter hf
  rw [getSource, List.find?_isSome]
  exact ⟨t, hmem, by simp⟩

/-- C2: if one enabled source's scan throws during a cycle, that source
gets a FAILED run with note, a structured error row, and an error-stamped
source row, its checkpoints stay untouched, and the cycle still gives every
enabled source its own run (the failure aborts nothing). -/
theorem claim_C2_cycle_error_isolation (scanC scanO : ScanFun)
    (mode msg : String) (st : CycleState)
    (pre post : List IngestionSourceRow) (s : IngestionSourceRow)
    (hfresh : ∀ r ∈ st.runs, r.id < st.nextRunId)
    (hnd : ((enabledSources (ensureDefaultIngestionSources st)).map
      fun t => t.id).Nodup)
    (hsplit : enabledSources (ensureDefaultIngestionSources st) =
      pre ++ s :: post)
    (herr : scanResultOf scanC scanO
      (pre.foldl (processSource scanC scanO mode)
        (ensureDefaultIngestionSources st)) s = Except.error msg) :
    (runIngestionCycle scanC scanO st mode).runs.length =
      st.runs.length +
        (enabledSources (ensureDefaultIngestionSources st)).length ∧
    (∀ t ∈ enabledSources (ensureDefaultIngestionSources st),
      ∃ run ∈ (runIngestionCycle scanC scanO st mode).runs,
        run.sourceId = t.id) ∧
    (∃ run ∈ (runIngestionCycle scanC scanO st mode).runs,
      run.sourceId = s.id ∧ run.status = IngestionRunStatus.FAILED ∧
      run.note = some msg ∧
      ∃ err ∈ (runIngestionCycle scanC scanO st mode).errors,
        err.runId = run.id ∧ err.sourceId = s.id ∧
        err.code = "INGESTION_FAILURE" ∧ err.message = msg) ∧
    (∃ srow, getSource (runIngestionCycle scanC scanO st mode) s.id =
        some srow ∧
      srow.lastErrorAt = some st.now ∧ srow.statusMessage = some msg) ∧
    (∀ k, getCheckpoint (runIngestionCycle scanC scanO st mode) s.id k =
      getCheckpoint st s.id k) := by
  have hframe := ensureDefault_frame st
  have hfresh0 : ∀ r ∈ (ensureDefaultIngestionSources st).runs,
      r.id < (ensureDefaultIngestionSources st).nextRunId := by
    intro r hr
    rw [hframe.1] at hr
    rw [hframe.2.2.2.1]
    exact hfresh r hr
  have hpresent := enabledSources_present (ensureDefaultIngestionSources st)
  rw [hsplit] at hnd
  rw [List.map_append, List.map_cons, List.nodup_append] at hnd
  obtain ⟨-, hnd2, hdisj⟩ := hnd
  rw [List.nodup_cons] at hnd2
  obtain ⟨hsnot, -⟩ := hnd2
  have hspre : ∀ t ∈ pre, s.id ≠ t.id := by
    intro t ht heq
    exact hdisj (List.mem_map_of_mem _ ht)
      (by rw [← heq]; exact List.mem_cons_self _ _)
  have hspost : ∀ t ∈ post, s.id ≠ t.id := by
    intro t ht heq
    exact hsnot (by rw [heq]; exact List.mem_map_of_mem _ ht)
  have hpostpre : ∀ t ∈ post, ∀ u ∈ pre, t.id ≠ u.id := by
    intro t ht u hu heq
    exact hdisj (by rw [heq]; exact List.mem_map_of_mem _ hu)
      (List.mem_cons_of_mem _ (List.mem_map_of_mem _ ht))
  obtain ⟨a1, a2, a3, a4, a5, a6, a7, a8, a9⟩ :=
    foldl_processSource_spec scanC scanO mode pre
      (ensureDefaultIngestionSources st) hfresh0
      (fun t ht => hpresent t
        (by rw [hsplit]; exact List.mem_append_left _ ht))
  have hsmem : s ∈ enabledSources (ensureDefaultIngestionSources st) := by
    rw [hsplit]
    exact List.mem_append_right _ (List.mem_cons_self s post)
  have hsA : (getSource (pre.foldl (processSource scanC scanO mode)
      (ensureDefaultIngestionSources st)) s.id).isSome := by
    rw [a7 s.id hspre]
    exact hpresent s hsmem
  obtain ⟨h1, h2, h3, h4, h5, h6, h7, h8, h9, h10, h11, h12⟩ :=
    processSource_spec scanC scanO mode
      (pre.foldl (processSource scanC scanO mode)
        (ensureDefaultIngestionSources st)) s a5 hsA
  obtain ⟨hrun_fail, hsrow, hcp_fail⟩ := h10 msg herr
  have hpostpres : ∀ t ∈ post,
      (getSource (processSource scanC scanO mode
        (pre.foldl (processSource scanC scanO mode)
          (ensureDefaultIngestionSources st)) s) t.id).isSome := by
    intro t ht
    by_cases hts : t.id = s.id
    · rw [hts]
      exact h9
    · rw [h7 t.id hts, a7 t.id (fun u hu => hpostpre t ht u hu)]
      exact hpresent t
        (by
          rw [hsplit]
          exact List.mem_append_right _ (List.mem_cons_of_mem s ht))
  obtain ⟨b1, b2, b3, b4, b5, b6, b7, b8, b9⟩ :=
    foldl_processSource_spec scanC scanO mode post
      (processSource scanC scanO mode
        (pre.foldl (processSource scanC scanO mode)
          (ensureDefaultIngestionSources st)) s) h5 hpostpres
  simp only [runIngestionCycle]
  rw [hsplit, List.foldl_append, List.foldl_cons]
  refine ⟨?_, ?_, ?_, ?_, ?_⟩
  · rw [b2, h2, a2, hframe.1]
    simp only [List.length_append, List.length_cons]
    omega
  · intro t ht
    rcases List.mem_append.mp ht with ht | ht
    · obtain ⟨run, hm, hrs⟩ := a9 t ht
      exact ⟨run, b4 run (h4 run hm), hrs⟩
    · rcases List.mem_cons.mp ht with rfl | ht
      · obtain ⟨run, hm, hrs, -⟩ := hrun_fail
        exact ⟨run, b4 run hm, hrs⟩
      · obtain ⟨run, hm, hrs⟩ := b9 t ht
        exact ⟨run, hm, hrs⟩
  · obtain ⟨run, hm, hrs, hstat, hnote, hfin, err, hem, he1, he2, he3,
      he4⟩ := hrun_fail
    exact ⟨run, b4 run hm, hrs, hstat, hnote,
      err, b6 err hem, he1, he2, he3, he4⟩
  · obtain ⟨srow, hget, herr1, herr2⟩ := hsrow
    refine ⟨srow, ?_, ?_, herr2⟩
    · rw [b7 s.id hspost]
      exact hget
    · rw [herr1, a1, hframe.2.2.2.2]
  · intro k
    rw [b8 s.id k hspost, hcp_fail k, a8 s.id k hspre]
    exact getCheckpoint_congr hframe.2.2.1 s.id k

/-- C4: the checkpoint of a source run is advanced only on success and only
when the adapter reported a maximum observed timestamp, in which case that
timestamp is stored under the `(source, "lastTimestamp")` key; all other
checkpoint entries are untouched; and the effective scan lower bound is the
maximum of the stored checkpoint and the lookback start `now − lookbackDays`. -/
theorem claim_C4_checkpoint_policy (scanC scanO : ScanFun) (mode : String)
    (st : CycleState) (source : IngestionSourceRow)
    (hfresh : ∀ r ∈ st.runs, r.id < st.nextRunId)
    (hsrc : (getSource st source.id).isSome) :
    (∀ (cp : Option Int) (now ld : Int),
      effectiveSince cp now ld =
        max (cp.getD (now - ld * 86400000)) (now - ld * 86400000)) ∧
    (∀ msg, scanResultOf scanC scanO st source = Except.error msg →
      ∀ k, getCheckpoint (processSource scanC scanO mode st source)
        source.id k = getCheckpoint st source.id k) ∧
    (∀ sessions ts,
      scanResultOf scanC scanO st source = Except.ok (sessions, some ts) →
      getCheckpoint (processSource scanC scanO mode st source) source.id
          "lastTimestamp" = some ts ∧
      ∀ k, k ≠ "lastTimestamp" →
        getCheckpoint (processSource scanC scanO mode st source) source.id
            k = getCheckpoint st source.id k) ∧
    (∀ sessions,
      scanResultOf scanC scanO st source = Except.ok (sessions, none) →
      ∀ k, getCheckpoint (processSource scanC scanO mode st source)
        source.id k = getCheckpoint st source.id k) ∧
    (∀ id2 k2, id2 ≠ source.id →
      getCheckpoint (processSource scanC scanO mode st source) id2 k2 =
        getCheckpoint st id2 k2) := by
  obtain ⟨h1, h2, h3, h4, h5, h6, h7, h8, h9, h10, h11, h12⟩ :=
    processSource_spec scanC scanO mode st source hfresh hsrc
  refine ⟨?_, ?_, ?_, ?_, h8⟩
  · intro cp now ld
    cases cp with
    | none =>
      simp only [effectiveSince, Option.getD_none]
      omega
    | some c =>
      simp only [effectiveSince, Option.getD_some]
      split <;> omega
  · exact fun msg hm => (h10 msg hm).2.2
  · intro sessions ts hok
    obtain ⟨x1, x2, -⟩ := h11 sessions ts hok
    exact ⟨x1, x2⟩
  · exact fun sessions hok => (h12 sessions hok).1

def c2ScanC : ScanFun := fun _ _ => Except.error "boom"

def c2ScanO : ScanFun := fun _ _ => Except.ok ([], none)

def c2ClaudeRow : IngestionSourceRow :=
  { id := "src:claude-default", key := "claude-default",
    type_ := IngestionSourceType.CLAUDE, name := "Claude default",
    rootPath := some DEFAULT_CLAUDE_ROOT,
    lookbackDays := DEFAULT_LOOKBACK_DAYS, pollIntervalSec := 30,
    createdAt := 0 }

def c2OpenRow : IngestionSourceRow :=
  { id := "src:opencode-default", key := "opencode-default",
    type_ := IngestionSourceType.OPENCODE, name := "OpenCode default",
    rootPath := some DEFAULT_OPENCODE_HOME,
    dbPath := some (DEFAULT_OPENCODE_HOME ++ "/opencode.db"),
    lookbackDays := DEFAULT_LOOKBACK_DAYS, pollIntervalSec := 15,
    createdAt := 0 }

/-- Witness for C2 at a concrete two-source cycle whose Claude scan
throws: the Claude source gets a FAILED run plus error row, the OpenCode
source still gets its own run, and the Claude checkpoints are untouched. -/
theorem claim_C2_witness :
    (∃ run ∈ (runIngestionCycle c2ScanC c2ScanO {} "batch").runs,
      run.sourceId = c2ClaudeRow.id ∧
      run.status = IngestionRunStatus.FAILED ∧ run.note = some "boom" ∧
      ∃ err ∈ (runIngestionCycle c2ScanC c2ScanO {} "batch").errors,
        err.runId = run.id ∧ err.sourceId = c2ClaudeRow.id ∧
        err.code = "INGESTION_FAILURE" ∧ err.message = "boom") ∧
    (∀ t ∈ enabledSources (ensureDefaultIngestionSources {}),
      ∃ run ∈ (runIngestionCycle c2ScanC c2ScanO {} "batch").runs,
        run.sourceId = t.id) ∧
    (∀ k, getCheckpoint (runIngestionCycle c2ScanC c2ScanO {} "batch")
        c2ClaudeRow.id k = getCheckpoint {} c2ClaudeRow.id k) := by
  have hsplit : enabledSources (ensureDefaultIngestionSources {}) =
      [] ++ c2ClaudeRow :: [c2OpenRow] := by
    rw [enabledSources]
    rw [show ((ensureDefaultIngestionSources {}).sources.filter
        fun s => s.isEnabled) = [c2ClaudeRow, c2OpenRow] from by decide]
    exact List.mergeSort_of_sorted (by decide)
  have h := claim_C2_cycle_error_isolation c2ScanC c2ScanO "batch" "boom"
    {} [] [c2OpenRow] c2ClaudeRow (by simp)
    (by rw [hsplit]; decide) hsplit rfl
  exact ⟨h.2.2.1, h.2.1, h.2.2.2.2⟩

def c4Source : IngestionSourceRow :=
  { id := "src1", key := "k1", type_ := IngestionSourceType.CLAUDE,
    name := "n", lookbackDays := 30, createdAt := 0 }

def c4St : CycleState := { sources := [c4Source] }

def c4ScanC : ScanFun := fun _ _ => Except.ok ([], some 5)

def c4ScanO : ScanFun := fun _ _ => Except.ok ([], none)

/-- Witness for C4 at a concrete source whose scan succeeds with maximum
timestamp 5: the checkpoint is advanced to 5, and the effective lower
bound is the checkpoint/lookback maximum. -/
theorem claim_C4_witness :
    effectiveSince (some 3) 10 0 = max 3 (10 - 0 * 86400000) ∧
    getCheckpoint (processSource c4ScanC c4ScanO "batch" c4St c4Source)
      c4Source.id "lastTimestamp" = some 5 := by
  have h := claim_C4_checkpoint_policy c4ScanC c4ScanO "batch" c4St
    c4Source (by simp [c4St]) (by decide)
  exact ⟨h.1 (some 3) 10 0, (h.2.2.1 [] 5 rfl).1⟩

/-- Timing model of the watcher entry point: `await tick()` runs the first
cycle to completion, then `setInterval(() => { void tick(); }, POLL_INTERVAL_MS)`
fires every `pollIntervalMs` thereafter.  Each cycle takes `tickDuration`
milliseconds. -/
structure WatcherModel where
  tickDuration : Int
  pollIntervalMs : Int
deriving DecidableEq

/-- Start time of the k-th tick.  Tick 0 is the awaited startup tick; the
interval handler is `() => { void tick(); }` — a fire-and-forget call with
no in-progress guard — so tick `k+1` starts exactly when the timer fires,
whether or not an earlier tick is still running. -/
def tickStart (w : WatcherModel) : Nat → Int
  | 0 => 0
  | Nat.succ k => w.tickDuration + w.pollIntervalMs * ((k : Int) + 1)

/-- Whether tick `k` is still executing at time `t`. -/
def tickActive (w : WatcherModel) (k : Nat) (t : Int) : Bool :=
  decide (tickStart w k ≤ t ∧ t < tickStart w k + w.tickDuration)

/-- Number of the first `n` ticks executing concurrently at time `t`. -/
def concurrentTicks (w : WatcherModel) (n : Nat) (t : Int) : Nat :=
  ((List.range n).filter fun k => tickActive w k t).length

/-- C5: refuted.  The watcher's interval handler starts a cycle
unconditionally (there is no "cycle in progress" flag anywhere in the
worker), so as soon as one cycle outlasts the poll interval two cycles run
concurrently: with a 2 ms cycle and a 1 ms interval, ticks 1 and 2 are both
running at t = 4. -/
theorem claim_C5_overlap :
    2 ≤ concurrentTicks { tickDuration := 2, pollIntervalMs := 1 } 3 4 := by
  decide

/-- Lowercasing of a whole string (the view of the input taken by the
`i`-flagged regexes). -/
def lower (s : Text) : Text := s.map lowerChar

/-- The three tag pairs recognised by the sanitizer. -/
inductive TagKind
  | caveat
  | reminder
  | stdout
deriving DecidableEq

def openOf : TagKind → Text
  | TagKind.caveat => caveatOpen
  | TagKind.reminder => reminderOpen
  | TagKind.stdout => stdoutOpen

def closeOf : TagKind → Text
  | TagKind.caveat => caveatClose
  | TagKind.reminder => reminderClose
  | TagKind.stdout => stdoutClose

/-- A well-formed sanitizer input decomposed into segments: plain text, and
complete tagged spans (open tag, body, close tag, in any letter case). -/
inductive Piece
  | plain (t : Text)
  | span (k : TagKind) (o b c : Text)
deriving DecidableEq

def renderPiece : Piece → Text
  | Piece.plain t => t
  | Piece.span _ o b c => o ++ b ++ c

/-- The input string denoted by a segment list. -/
def render (ps : List Piece) : Text :=
  ps.foldr (fun p acc => renderPiece p ++ acc) []

/-- Well-formedness of one segment: a plain segment contains no `<`, a span
carries some letter-case variant of its canonical tag pair around a body
that contains no `<`. -/
def pieceWF : Piece → Bool
  | Piece.plain t => decide ('<' ∉ t)
  | Piece.span k o b c =>
    decide (lower o = openOf k) && decide (lower c = closeOf k) &&
      decide ('<' ∉ b)

/-- Segments surviving the replace pass for tag `k`. -/
def keepPiece (k : TagKind) : Piece → Bool
  | Piece.plain _ => true
  | Piece.span k2 _ _ _ => decide (k2 ≠ k)

/-- Concatenation of the plain segments only. -/
def plainTexts : List Piece → Text
  | [] => []
  | Piece.plain t :: ps => t ++ plainTexts ps
  | Piece.span _ _ _ _ :: ps => plainTexts ps

/-- No occurrence of `pat` can start anywhere inside `u`, whatever follows
`u`. -/
def Blocked (pat u : Text) : Prop :=
  ∀ (p : Nat) (x : Text), p < u.length → ¬ pat <+: (u.drop p ++ x)

theorem lowerChar_ne_lt {c : Char} (h : c ≠ '<') : lowerChar c ≠ '<' := by
  intro hl
  apply h
  rw [lowerChar, Char.toLower] at hl
  split at hl
  · next hr =>
    exfalso
    have hv : (c.toNat + 32).isValidChar := Or.inl (by omega)
    have h2 := congrArg Char.toNat hl
    have h3 : (Char.ofNat (c.toNat + 32)).toNat = c.toNat + 32 := by
      unfold Char.ofNat
      rw [dif_pos hv]
      simp [Char.toNat, Char.ofNatAux, UInt32.toNat, BitVec.toNat_ofNatLt]
    rw [h3] at h2
    have h4 : ('<' : Char).toNat = 60 := by decide
    omega
  · exact hl

theorem lt_not_mem_lower {s : Text} (h : '<' ∉ s) : '<' ∉ lower s := by
  intro hmem
  rw [lower] at hmem
  obtain ⟨a, ha, hla⟩ := List.mem_map.mp hmem
  exact lowerChar_ne_lt (fun heq => h (heq ▸ ha)) hla

theorem blocked_ltfree (pat u : Text) (hp : pat.head? = some '<')
    (hu : '<' ∉ u) : Blocked pat u := by
  intro p x hplen hpre
  obtain ⟨r, hr⟩ := hpre
  rw [List.drop_eq_getElem_cons hplen] at hr
  cases pat with
  | nil => simp at hp
  | cons pc pat2 =>
    simp only [List.head?_cons, Option.some.injEq] at hp
    subst hp
    rw [List.cons_append, List.cons_append] at hr
    have hh : '<' = u[p] := by
      injection hr
    exact hu (hh ▸ List.getElem_mem hplen)

theorem blocked_tail {pat u : Text} {c : Char}
    (h : Blocked pat (c :: u)) : Blocked pat u := by
  intro p x hplen hpre
  apply h (p + 1) x (by simp; omega)
  rwa [List.drop_succ_cons]

theorem blocked_append {pat u v : Text} (h1 : Blocked pat u)
    (h2 : Blocked pat v) : Blocked pat (u ++ v) := by
  intro p x hplen hpre
  by_cases hpu : p < u.length
  · apply h1 p (v ++ x) hpu
    rwa [List.drop_append_of_le_length (Nat.le_of_lt hpu),
      List.append_assoc] at hpre
  · apply h2 (p - u.length) x
      (by rw [List.length_append] at hplen; omega)
    rwa [show p = u.length + (p - u.length) by omega,
      List.drop_append] at hpre

theorem blocked_literal (pat L : Text) (h1 : ¬ pat <+: L)
    (h2 : ¬ L <+: pat) (h3 : '<' ∉ L.drop 1)
    (h4 : pat.head? = some '<') : Blocked pat L := by
  intro p x hplen hpre
  cases p with
  | zero =>
    rw [List.drop_zero] at hpre
    rcases List.prefix_or_prefix_of_prefix hpre ( List.prefix_append L x)
      with h | h
    · exact h1 h
    · exact h2 h
  | succ p2 =>
    apply blocked_ltfree pat (L.drop 1) h4 h3 p2 x
      (by rw [List.length_drop]; omega)
    rw [List.drop_drop, Nat.add_comm]
    exact hpre

theorem startsWithCI_eq (pat : Text) :
    ∀ s, startsWithCI pat s = pat.isPrefixOf (lower s) := by
  induction pat with
  | nil =>
    intro s
    cases s <;> rfl
  | cons p pat2 ih =>
    intro s
    cases s with
    | nil => rfl
    | cons c cs =>
      simp only [startsWithCI, lower, List.map_cons, List.isPrefixOf,
        ih cs]
      have hcomm : (lowerChar c == p) = (p == lowerChar c) := by
        by_cases h : lowerChar c = p
        · subst h
          rfl
        · rw [beq_eq_false_iff_ne.mpr h, beq_eq_false_iff_ne.mpr (Ne.symm h)]
      rw [hcomm]

theorem isPrefixOf_iff_pfx {l1 l2 : Text} :
    l1.isPrefixOf l2 = true ↔ l1 <+: l2 := by
  induction l1 generalizing l2 with
  | nil => simp [List.isPrefixOf]
  | cons a l1 ih =>
    cases l2 with
    | nil => simp [List.isPrefixOf]
    | cons b l2 =>
      simp only [List.isPrefixOf, Bool.and_eq_true, beq_iff_eq, ih,
        List.cons_prefix_cons]

theorem findCI_nil_of_ne (pat : Text) (h : pat ≠ []) :
    findCI pat [] = none := by
  rw [findCI, if_neg]
  simp [List.isEmpty_iff, h]

theorem findCI_blocked_append (pat : Text) :
    ∀ (a t : Text), Blocked pat (lower a) →
      findCI pat (a ++ t) = (findCI pat t).map (· + a.length) := by
  intro a
  induction a with
  | nil =>
    intro t hb
    rw [List.nil_append]
    cases findCI pat t <;> simp
  | cons c a2 ih =>
    intro t hb
    have hb2 : Blocked pat (lower a2) := blocked_tail (u := lower a2) hb
    have hnp : startsWithCI pat (c :: (a2 ++ t)) = false := by
      rw [startsWithCI_eq]
      rw [Bool.eq_false_iff]
      intro hps
      apply hb 0 (lower t) (by simp [lower])
      rw [List.drop_zero]
      have : lower (c :: a2) ++ lower t = lower (c :: (a2 ++ t)) := by
        simp [lower]
      rw [this]
      exact isPrefixOf_iff_pfx.mp hps
    rw [List.cons_append, findCI, if_neg (by simp [hnp]), ih t hb2]
    cases findCI pat t with
    | none => rfl
    | some v =>
      simp only [Option.map_some', Option.some.injEq, List.length_cons]
      omega

theorem findCI_of_startsWith (pat s : Text)
    (h : startsWithCI pat s = true) (hs : s ≠ []) :
    findCI pat s = some 0 := by
  cases s with
  | nil => exact absurd rfl hs
  | cons c cs => rw [findCI, if_pos h]

theorem findCI_blocked_none (pat : Text) (a : Text)
    (hb : Blocked pat (lower a)) (hpat : pat ≠ []) :
    findCI pat a = none := by
  have h := findCI_blocked_append pat a [] hb
  rw [List.append_nil, findCI_nil_of_ne pat hpat] at h
  simpa using h

theorem dropTaggedAux_shift (O C : Text) (a t : Text)
    (hb : Blocked O (lower a)) (m : Nat) :
    dropTaggedAux O C m (a ++ t) = a ++ dropTaggedAux O C m t := by
  cases m with
  | zero => rfl
  | succ m =>
    have hfind := findCI_blocked_append O a t hb
    cases hft : findCI O t with
    | none =>
      rw [hft] at hfind
      simp only [Option.map_none'] at hfind
      simp only [dropTaggedAux, hfind, hft]
    | some i =>
      rw [hft] at hfind
      simp only [Option.map_some'] at hfind
      simp only [dropTaggedAux, hfind, hft]
      have hdrop1 : (a ++ t).drop (i + a.length + O.length) =
          t.drop (i + O.length) := by
        rw [show i + a.length + O.length = a.length + (i + O.length)
          by omega, List.drop_append]
      rw [hdrop1]
      cases hfc : findCI C (t.drop (i + O.length)) with
      | none => rfl
      | some j =>
        simp only []
        rw [show i + a.length = a.length + i by omega, List.take_append,
          List.append_assoc]

theorem lower_append (a b : Text) : lower (a ++ b) = lower a ++ lower b := by
  simp [lower]

theorem openOf_head (k : TagKind) : (openOf k).head? = some '<' := by
  cases k <;> rfl

theorem closeOf_head (k : TagKind) : (closeOf k).head? = some '<' := by
  cases k <;> rfl

theorem openOf_ne_nil (k : TagKind) : openOf k ≠ [] := by
  cases k <;> decide

theorem openOf_len_pos (k : TagKind) : 1 ≤ (openOf k).length := by
  cases k <;> decide

theorem blocked_open_open {k k2 : TagKind} (hne : k2 ≠ k) :
    Blocked (openOf k) (openOf k2) := by
  apply blocked_literal
  · revert hne
    cases k <;> cases k2 <;> decide
  · revert hne
    cases k <;> cases k2 <;> decide
  · cases k2 <;> decide
  · exact openOf_head k

theorem blocked_open_close (k k2 : TagKind) :
    Blocked (openOf k) (closeOf k2) := by
  apply blocked_literal
  · cases k <;> cases k2 <;> decide
  · cases k <;> cases k2 <;> decide
  · cases k2 <;> decide
  · exact openOf_head k

/-- A surviving segment can contain no occurrence of the pass's open tag. -/
theorem blocked_keep {k : TagKind} {p : Piece} (hwf : pieceWF p = true)
    (hkeep : keepPiece k p = true) :
    Blocked (openOf k) (lower (renderPiece p)) := by
  cases p with
  | plain t =>
    simp only [pieceWF, decide_eq_true_eq] at hwf
    exact blocked_ltfree _ _ (openOf_head k) (lt_not_mem_lower hwf)
  | span k2 o b c =>
    simp only [pieceWF, Bool.and_eq_true, decide_eq_true_eq] at hwf
    obtain ⟨⟨ho, hc⟩, hb⟩ := hwf
    simp only [keepPiece, decide_eq_true_eq] at hkeep
    simp only [renderPiece]
    rw [lower_append, lower_append, ho, hc]
    exact blocked_append
      (blocked_append (blocked_open_open hkeep)
        (blocked_ltfree _ _ (openOf_head k) (lt_not_mem_lower hb)))
      (blocked_open_close k k2)

/-- One global-replace pass removes exactly the spans of its tag kind,
given enough fuel. -/
theorem dropTaggedAux_render (k : TagKind) :
    ∀ (n : Nat) (ps : List Piece),
      (∀ p ∈ ps, pieceWF p = true) →
      (ps.filter fun p => !keepPiece k p).length ≤ n →
      dropTaggedAux (openOf k) (closeOf k) n (render ps) =
        render (ps.filter (keepPiece k)) := by
  intro n
  induction n with
  | zero =>
    intro ps hwf hcount
    have hnil : (ps.filter fun p => !keepPiece k p) = [] :=
      List.length_eq_zero.mp (Nat.le_zero.mp hcount)
    have hall : ∀ p ∈ ps, keepPiece k p = true := by
      intro p hp
      by_contra hne
      have : p ∈ ps.filter fun p => !keepPiece k p := by
        rw [List.mem_filter]
        exact ⟨hp, by simp [Bool.eq_false_iff.mpr hne]⟩
      rw [hnil] at this
      simp at this
    rw [List.filter_eq_self.mpr hall]
    rfl
  | succ n ihn =>
    intro ps
    induction ps with
    | nil =>
      intro _ _
      show dropTaggedAux (openOf k) (closeOf k) (n + 1) [] = _
      simp only [dropTaggedAux,
        findCI_nil_of_ne (openOf k) (openOf_ne_nil k)]
      rfl
    | cons p ps2 ihp =>
      intro hwf hcount
      have hwf2 : ∀ q ∈ ps2, pieceWF q = true :=
        fun q hq => hwf q (List.mem_cons_of_mem _ hq)
      cases hkeep : keepPiece k p with
      | true =>
        have hblocked : Blocked (openOf k) (lower (renderPiece p)) :=
          blocked_keep (hwf p (List.mem_cons_self _ _)) hkeep
        have hcount2 :
            (ps2.filter fun q => !keepPiece k q).length ≤ n + 1 := by
          rw [List.filter_cons_of_neg (by simp [hkeep])] at hcount
          exact hcount
        calc dropTaggedAux (openOf k) (closeOf k) (n + 1)
              (render (p :: ps2))
            = dropTaggedAux (openOf k) (closeOf k) (n + 1)
                (renderPiece p ++ render ps2) := rfl
          _ = renderPiece p ++
                dropTaggedAux (openOf k) (closeOf k) (n + 1)
                  (render ps2) :=
              dropTaggedAux_shift _ _ _ _ hblocked _
          _ = renderPiece p ++ render (ps2.filter (keepPiece k)) := by
              rw [ihp hwf2 hcount2]
          _ = render ((p :: ps2).filter (keepPiece k)) := by
              rw [List.filter_cons_of_pos hkeep]
              rfl
      | false =>
        cases p with
        | plain t => simp [keepPiece] at hkeep
        | span k2 o b c =>
          have hk2 : k2 = k := by
            by_contra hne
            simp [keepPiece, hne] at hkeep
          subst hk2
          have hw := hwf _ (List.mem_cons_self _ _)
          simp only [pieceWF, Bool.and_eq_true, decide_eq_true_eq] at hw
          obtain ⟨⟨ho, hc⟩, hbb⟩ := hw
          have hlo : o.length = (openOf k2).length := by
            rw [← ho]
            simp [lower]
          have hlc : c.length = (closeOf k2).length := by
            rw [← hc]
            simp [lower]
          have hs : render (Piece.span k2 o b c :: ps2) =
              o ++ (b ++ (c ++ render ps2)) := by
            show renderPiece (Piece.span k2 o b c) ++ render ps2 = _
            simp [renderPiece, List.append_assoc]
          rw [hs]
          have hfo : findCI (openOf k2)
              (o ++ (b ++ (c ++ render ps2))) = some 0 := by
            apply findCI_of_startsWith
            · rw [startsWithCI_eq, lower_append, ho]
              exact isPrefixOf_iff_pfx.mpr ( List.prefix_append _ _)
            · intro hnil
              have h0 := (List.append_eq_nil.mp hnil).1
              rw [h0] at ho
              exact openOf_ne_nil k2 (by simpa [lower] using ho.symm)
          simp only [dropTaggedAux, hfo]
          have hd1 : (o ++ (b ++ (c ++ render ps2))).drop
              (0 + (openOf k2).length) = b ++ (c ++ render ps2) := by
            rw [Nat.zero_add, ← hlo, List.drop_left]
          rw [hd1]
          have h0c : findCI (closeOf k2) (c ++ render ps2) = some 0 := by
            apply findCI_of_startsWith
            · rw [startsWithCI_eq, lower_append, hc]
              exact isPrefixOf_iff_pfx.mpr ( List.prefix_append _ _)
            · intro hnil
              have h0 := (List.append_eq_nil.mp hnil).1
              rw [h0] at hc
              have : closeOf k2 ≠ [] := by cases k2 <;> decide
              exact this (by simpa [lower] using hc.symm)
          have hfc : findCI (closeOf k2) (b ++ (c ++ render ps2)) =
              some b.length := by
            rw [findCI_blocked_append (closeOf k2) b (c ++ render ps2)
              (blocked_ltfree _ _ (closeOf_head k2)
                (lt_not_mem_lower hbb)), h0c]
            simp
          rw [hfc]
          simp only [List.take_zero, List.nil_append]
          have hd2 : (b ++ (c ++ render ps2)).drop
              (b.length + (closeOf k2).length) = render ps2 := by
            rw [← hlc, List.drop_append, List.drop_left]
          rw [hd2]
          have hcount2 :
              (ps2.filter fun q => !keepPiece k2 q).length ≤ n := by
            rw [List.filter_cons_of_pos (by simp [hkeep])] at hcount
            rw [List.length_cons] at hcount
            omega
          rw [ihn ps2 hwf2 hcount2,
            List.filter_cons_of_neg (by simp [hkeep])]

theorem render_cons (p : Piece) (ps : List Piece) :
    render (p :: ps) = renderPiece p ++ render ps := rfl

theorem spanCount_le_render (k : TagKind) :
    ∀ ps : List Piece, (∀ p ∈ ps, pieceWF p = true) →
      (ps.filter fun p => !keepPiece k p).length ≤ (render ps).length := by
  intro ps
  induction ps with
  | nil =>
    intro _
    simp
  | cons p ps2 ih =>
    intro hwf
    have h2 := ih fun q hq => hwf q (List.mem_cons_of_mem _ hq)
    rw [render_cons, List.length_append, List.filter_cons]
    by_cases hkeep : keepPiece k p = true
    · rw [if_neg (by simp [hkeep])]
      omega
    · rw [if_pos (by simp [Bool.eq_false_iff.mpr hkeep]), List.length_cons]
      have hp1 : 1 ≤ (renderPiece p).length := by
        cases p with
        | plain t => simp [keepPiece] at hkeep
        | span k2 o b c =>
          have hw := hwf _ (List.mem_cons_self _ _)
          simp only [pieceWF, Bool.and_eq_true, decide_eq_true_eq] at hw
          have hlo : o.length = (openOf k2).length := by
            rw [← hw.1.1]
            simp [lower]
          simp only [renderPiece, List.length_append]
          have := openOf_len_pos k2
          omega
      omega

/-- One full `replaceAll` pass removes exactly the spans of its tag kind. -/
theorem dropTagged_render (k : TagKind) (ps : List Piece)
    (hwf : ∀ p ∈ ps, pieceWF p = true) :
    dropTagged (openOf k) (closeOf k) (render ps) =
      render (ps.filter (keepPiece k)) :=
  dropTaggedAux_render k (render ps).length ps hwf
    (spanCount_le_render k ps hwf)

theorem render_filter3_eq_plains :
    ∀ ps : List Piece,
      render (((ps.filter (keepPiece TagKind.caveat)).filter
          (keepPiece TagKind.reminder)).filter
        (keepPiece TagKind.stdout)) = plainTexts ps := by
  intro ps
  induction ps with
  | nil => rfl
  | cons p ps2 ih =>
    cases p with
    | plain t =>
      simp only [List.filter_cons, keepPiece, if_pos, render_cons,
        renderPiece, plainTexts, ih]
    | span k2 o b c =>
      show render _ = plainTexts ps2
      cases k2 with
      | caveat =>
        rw [List.filter_cons_of_neg Bool.false_ne_true]
        exact ih
      | reminder =>
        rw [List.filter_cons_of_pos rfl,
          List.filter_cons_of_neg Bool.false_ne_true]
        exact ih
      | stdout =>
        rw [List.filter_cons_of_pos rfl,
          List.filter_cons_of_pos rfl,
          List.filter_cons_of_neg Bool.false_ne_true]
        exact ih

theorem plainTexts_eq_nil (ps : List Piece)
    (h : ∀ p ∈ ps, ∀ t, p ≠ Piece.plain t) : plainTexts ps = [] := by
  induction ps with
  | nil => rfl
  | cons p ps2 ih =>
    cases p with
    | plain t => exact absurd rfl (h _ (List.mem_cons_self _ _) t)
    | span k o b c =>
      show plainTexts ps2 = []
      exact ih fun q hq t => h q (List.mem_cons_of_mem _ hq) t

/-- C8: on a well-formed input — a concatenation of plain segments without
`<` and complete case-insensitive tagged spans — the sanitizer removes
exactly the tagged spans, leaving the plain segments untouched except for
the final trim; an input that is entirely tagged spans sanitizes to the
empty string. -/
theorem claim_C8_sanitizer (ps : List Piece)
    (hwf : ∀ p ∈ ps, pieceWF p = true) :
    sanitizeImportedText (render ps) = trimChars (plainTexts ps) ∧
    ((∀ p ∈ ps, ∀ t, p ≠ Piece.plain t) →
      sanitizeImportedText (render ps) = []) := by
  have hwf1 : ∀ p ∈ ps.filter (keepPiece TagKind.caveat),
      pieceWF p = true :=
    fun p hp => hwf p (List.mem_of_mem_filter hp)
  have hwf2 : ∀ p ∈ (ps.filter (keepPiece TagKind.caveat)).filter
      (keepPiece TagKind.reminder), pieceWF p = true :=
    fun p hp => hwf1 p (List.mem_of_mem_filter hp)
  have hmain : sanitizeImportedText (render ps) =
      trimChars (plainTexts ps) := by
    rw [sanitizeImportedText]
    rw [show caveatOpen = openOf TagKind.caveat from rfl,
      show caveatClose = closeOf TagKind.caveat from rfl,
      show reminderOpen = openOf TagKind.reminder from rfl,
      show reminderClose = closeOf TagKind.reminder from rfl,
      show stdoutOpen = openOf TagKind.stdout from rfl,
      show stdoutClose = closeOf TagKind.stdout from rfl]
    rw [dropTagged_render TagKind.caveat ps hwf,
      dropTagged_render TagKind.reminder _ hwf1,
      dropTagged_render TagKind.stdout _ hwf2,
      render_filter3_eq_plains ps]
  refine ⟨hmain, fun hspan => ?_⟩
  rw [hmain, plainTexts_eq_nil ps hspan]
  rfl

/-- The concrete well-formed input used by the C8 witness. -/
def c8Pieces : List Piece :=
  [Piece.plain "Hello ".data,
   Piece.span TagKind.reminder "<System-Reminder>".data
     " secret\nstuff ".data "</system-reminder>".data,
   Piece.plain "world".data,
   Piece.span TagKind.stdout "<LOCAL-COMMAND-STDOUT>".data "out".data
     "</local-command-stdout>".data]

/-- Witness for C8 at a concrete input mixing plain text with a mixed-case
multi-line reminder span and an upper-case stdout span. -/
theorem claim_C8_witness :
    (∀ p ∈ c8Pieces, pieceWF p = true) ∧
    sanitizeImportedText (render c8Pieces) =
      trimChars (plainTexts c8Pieces) :=
  ⟨by decide, (claim_C8_sanitizer c8Pieces (by decide)).1⟩

example : sanitizeImportedText "  hello world  ".data = "hello world".data := by decide

example :
    sanitizeImportedText
        "before<local-command-caveat>secret</local-command-caveat>after".data =
      "beforeafter".data := by decide

example :
    sanitizeImportedText "x<SYSTEM-REMINDER>hidden</SYSTEM-REMINDER>y".data =
      "xy".data := by decide

example :
    sanitizeImportedText "<system-reminder>all gone</system-reminder>".data = [] := by
  decide

example : fallbackSessionTitle [] "abcdefgh-1234".data = "Session abcdefgh".data := by
  decide

example : collapseWs "fix   the  bug\nnow".data = "fix the bug now".data := by decide

end AgentMesh
